import Mathlib

/-!
Verification of the BitCask storage engine of zap-store
(src/internal/storage/bitcask/bitcask.go).

The Go code is shallowly embedded: byte strings become `List Nat` (each
element standing for one byte), Go `int64` fields become `Int`, Go `uint32`
becomes `Nat` bounded by `2 ^ 32`, and the file system becomes an explicit
association list from file id to file contents.  Timestamps, produced in Go
by `time.Now().UnixNano()`, become explicit `Int` parameters of the
operations.  Disk-write failures, which in Go surface as errors from
`os.File.Write`, are modelled by the `WriteOutcome` parameter: `success`
appends the whole record, `fail torn` appends an arbitrary torn prefix
`torn` and reports an error, exactly as the Go error path re-stats the file.
All offsets are `Nat`: every offset the Go code computes is non-negative and
far below `2 ^ 63`, so `int64` overflow cannot distinguish the models.
-/

/-! ### Big-endian byte codec (mirrors encoding/binary BigEndian) -/

/-- Big-endian serialisation of `n` into `w` bytes, most significant first;
high bits beyond `8 * w` are dropped, as a Go fixed-width write does. -/
def beBytes : Nat → Nat → List Nat
  | 0, _ => []
  | w + 1, n => (n / 2 ^ (8 * w)) % 256 :: beBytes w n

/-- Big-endian value of a byte list (each element taken mod 256). -/
def beVal (bs : List Nat) : Nat :=
  bs.foldl (fun acc b => acc * 256 + b % 256) 0

/-- Decode 8 big-endian bytes as a two's-complement signed 64-bit integer,
as Go does when reading an `int64` with `binary.Read`. -/
def decodeI64 (bs : List Nat) : Int :=
  if beVal bs < 2 ^ 63 then (beVal bs : Int) else (beVal bs : Int) - 2 ^ 64

/-- Encode an `int64` as 8 big-endian two's-complement bytes, as Go's
`binary.Write` does. -/
def encodeI64 (x : Int) : List Nat :=
  beBytes 8 (x.emod (2 ^ 64)).toNat

/-! ### CRC-32 (IEEE), mirroring hash/crc32.ChecksumIEEE -/

/-- One bit-round of the reflected CRC-32 computation with the IEEE
polynomial 0xEDB88320. -/
def crc32Round (r : Nat) : Nat :=
  if r % 2 = 1 then (r / 2) ^^^ 0xEDB88320 else r / 2

/-- Fold one byte into the running CRC-32 register. -/
def crc32Byte (r b : Nat) : Nat :=
  crc32Round (crc32Round (crc32Round (crc32Round
    (crc32Round (crc32Round (crc32Round (crc32Round (r ^^^ b % 256))))))))

/-- CRC-32 checksum with the IEEE polynomial, as computed by Go's
`crc32.ChecksumIEEE`. -/
def crc32 (data : List Nat) : Nat :=
  (data.foldl crc32Byte 0xFFFFFFFF) ^^^ 0xFFFFFFFF

/-! ### The on-disk record (DataDirFileLogEntry) and its codec -/

/-- The tombstone sentinel value, the ASCII bytes of the 9-byte Go string
literal written by Delete. -/
def TOMBSTONE : List Nat := [60, 68, 69, 76, 69, 84, 69, 68, 62]

/-- One log record, mirroring the Go struct `DataDirFileLogEntry`:
`crc uint32; timeStamp, keySize, valueSize int64; key, value string`. -/
structure DataDirFileLogEntry where
  crc : Nat
  timeStamp : Int
  keySize : Int
  valueSize : Int
  key : List Nat
  value : List Nat
deriving DecidableEq, Repr

/-- Constructor mirroring Go `newDataDirFileLogEntry`; the timestamp, taken
from the wall clock in Go, is an explicit parameter here. -/
def newDataDirFileLogEntry (ts : Int) (key value : List Nat) : DataDirFileLogEntry :=
  { crc := crc32 value
    timeStamp := ts
    keySize := key.length
    valueSize := value.length
    key := key
    value := value }

/-- Serialisation mirroring Go `DataDirFileLogEntry.toBytes`: 28-byte
big-endian header (crc 4, timestamp 8, keySize 8, valueSize 8) followed by
the key bytes and the value bytes. -/
def DataDirFileLogEntry.toBytes (e : DataDirFileLogEntry) : List Nat :=
  beBytes 4 e.crc ++ encodeI64 e.timeStamp ++ encodeI64 e.keySize ++
    encodeI64 e.valueSize ++ e.key ++ e.value

/-- Error cases of `readEntry` other than clean end of file.  The Go code
reports all of them as generic errors distinct from `io.EOF`; the tags
record which check fired. -/
inductive ReadErr where
  | invalidSize
  | keyTruncated
  | valueTruncated
deriving DecidableEq, Repr

/-- Result of decoding one record from a byte stream. -/
inductive ReadResult where
  | eof
  | err (e : ReadErr)
  | ok (entry : DataDirFileLogEntry) (entrySize : Nat)
deriving DecidableEq, Repr

/-- The signed 64-bit field parsed at byte offset `off` of `data`, as
`readEntry` parses timestamp, keySize and valueSize. -/
def parsedField (data : List Nat) (off : Nat) : Int :=
  decodeI64 ((data.drop off).take 8)

/-- Decode one record starting at `position`, mirroring Go `readEntry`:
report clean EOF when fewer than 28 header bytes remain, reject parsed
sizes outside `[0, 2 ^ 20]`, and report truncation when the key or value
bytes are short.  On success return the record and its total size
`28 + keySize + valueSize`. -/
def readEntry (data : List Nat) (position : Nat) : ReadResult :=
  if data.length < position + 28 then .eof
  else if parsedField data (position + 12) < 0 ∨ parsedField data (position + 20) < 0 ∨
      2 ^ 20 < parsedField data (position + 12) ∨ 2 ^ 20 < parsedField data (position + 20) then
    .err .invalidSize
  else if data.length < position + 28 + (parsedField data (position + 12)).toNat then
    .err .keyTruncated
  else if data.length <
      position + 28 + (parsedField data (position + 12)).toNat +
        (parsedField data (position + 20)).toNat then
    .err .valueTruncated
  else
    .ok
      { crc := beVal ((data.drop position).take 4)
        timeStamp := parsedField data (position + 4)
        keySize := parsedField data (position + 12)
        valueSize := parsedField data (position + 20)
        key := (data.drop (position + 28)).take (parsedField data (position + 12)).toNat
        value := (data.drop (position + 28 + (parsedField data (position + 12)).toNat)).take
          (parsedField data (position + 20)).toNat }
      (28 + (parsedField data (position + 12)).toNat + (parsedField data (position + 20)).toNat)

/-! ### The key directory -/

/-- One key-directory entry, mirroring the Go struct `KeyDir`.  All Go
`int64` offset/size fields are non-negative on every reachable state, so
they are `Nat` here; the timestamp stays `Int`. -/
structure KeyDir where
  fileId : Nat
  valueSize : Nat
  valuePosition : Nat
  timeStamp : Int
deriving DecidableEq, Repr

/-- The in-memory key directory, a Go `map[string]KeyDir` modelled as an
association list with at most one binding per key. -/
abbrev KeyDirMap : Type := List (List Nat × KeyDir)

/-- Map lookup. -/
def kdLookup (key : List Nat) : KeyDirMap → Option KeyDir
  | [] => none
  | (k, e) :: rest => if k = key then some e else kdLookup key rest

/-- Map deletion (Go `delete(keyDir, key)`). -/
def kdErase (key : List Nat) : KeyDirMap → KeyDirMap
  | [] => []
  | (k, e) :: rest => if k = key then kdErase key rest else (k, e) :: kdErase key rest

/-- Map assignment (Go `keyDir[key] = e`). -/
def kdInsert (key : List Nat) (e : KeyDir) (m : KeyDirMap) : KeyDirMap :=
  (key, e) :: kdErase key m

/-! ### Startup scan (getKeyDir) -/

/-- Processing of one decoded record during the startup scan: the body of
the scan loop in Go `getKeyDir`.  A tombstone removes the key; otherwise the
entry is upserted iff the key is absent or the record's timestamp is
strictly greater, storing `valuePosition = position + 28 + keySize`. -/
def applyRecord (keyDir : KeyDirMap) (fileId : Nat) (position : Nat)
    (entry : DataDirFileLogEntry) : KeyDirMap :=
  if entry.value = TOMBSTONE then kdErase entry.key keyDir
  else
    let newEntry : KeyDir :=
      { fileId := fileId
        valueSize := entry.valueSize.toNat
        valuePosition := position + 28 + entry.keySize.toNat
        timeStamp := entry.timeStamp }
    match kdLookup entry.key keyDir with
    | none => kdInsert entry.key newEntry keyDir
    | some existingEntry =>
      if existingEntry.timeStamp < entry.timeStamp then kdInsert entry.key newEntry keyDir
      else keyDir

/-- Fuelled scan loop over one file; `fuel` only forces termination and is
always ample when called through `scanFile`. -/
def scanFileAux : Nat → KeyDirMap → Nat → List Nat → Nat → KeyDirMap
  | 0, keyDir, _, _, _ => keyDir
  | fuel + 1, keyDir, fileId, data, position =>
    match readEntry data position with
    | .eof => keyDir
    | .err _ => keyDir
    | .ok entry entrySize =>
      scanFileAux fuel (applyRecord keyDir fileId position entry) fileId data
        (position + entrySize)

/-- Sequential scan of one log file from offset 0, as the inner loop of Go
`getKeyDir` does.  Each decoded record consumes at least 28 bytes, so
`data.length + 1` units of fuel always suffice. -/
def scanFile (keyDir : KeyDirMap) (fileId : Nat) (data : List Nat) : KeyDirMap :=
  scanFileAux (data.length + 1) keyDir fileId data 0

/-- Startup scan over the whole data directory, mirroring Go `getKeyDir`.
`files` lists `(fileId, contents)` in directory-listing order, which for the
zero-padded `%016d.log` naming scheme is increasing file-id order.  Returns
the rebuilt directory and the largest file id seen (0 if none). -/
def getKeyDir (files : List (Nat × List Nat)) : KeyDirMap × Nat :=
  files.foldl (fun acc p => (scanFile acc.1 p.1 p.2, max acc.2 p.1)) ([], 0)

/-! ### The engine -/

/-- The active log file handle, mirroring the Go struct `Log` (the `os.File`
handle and path are represented by the file id, which indexes the
directory's file list). -/
structure Log where
  writerPosition : Nat
  fileId : Nat
deriving DecidableEq, Repr

/-- Lookup of a file's contents by id in the data directory. -/
def lookupFile (files : List (Nat × List Nat)) (fileId : Nat) : Option (List Nat) :=
  match files.find? (fun p => p.1 = fileId) with
  | none => none
  | some p => some p.2

/-- Append bytes to the file with the given id. -/
def appendToFile (files : List (Nat × List Nat)) (fileId : Nat) (bytes : List Nat) :
    List (Nat × List Nat) :=
  files.map (fun p => if p.1 = fileId then (p.1, p.2 ++ bytes) else p)

/-- Outcome of the underlying `os.File.Write` call: success, or a failure
that left an arbitrary torn prefix `torn` of data on disk. -/
inductive WriteOutcome where
  | success
  | fail (torn : List Nat)

/-- Append one serialised record to the log, mirroring Go `Log.setLogEntry`.
On success it returns the value-start and entry-end offsets, computed from
the tracked `writerPosition`; on a write failure it re-stats the file and
re-synchronises `writerPosition` to the observed length, returning no
offsets (the Go error return). -/
def Log.setLogEntry (l : Log) (files : List (Nat × List Nat)) (w : WriteOutcome)
    (e : DataDirFileLogEntry) : Log × List (Nat × List Nat) × Option (Nat × Nat) :=
  let bytesToWrite := e.toBytes
  match w with
  | .fail torn =>
    let files' := appendToFile files l.fileId torn
    let currentSize := ((lookupFile files' l.fileId).getD []).length
    ({ l with writerPosition := currentSize }, files', none)
  | .success =>
    let entryEndOffset := l.writerPosition + bytesToWrite.length
    let valueStartOffset := l.writerPosition + 28 + e.keySize.toNat
    ({ l with writerPosition := entryEndOffset },
      appendToFile files l.fileId bytesToWrite, some (valueStartOffset, entryEndOffset))

/-- Positional read of a value, mirroring Go `getLogValue`: open the file
with the given id, `ReadAt` exactly `valueSize` bytes at `valueOffset`;
a missing file or a short read is an error (`none`). -/
def getLogValue (files : List (Nat × List Nat)) (fileId : Nat) (valueOffset : Nat)
    (valueSize : Nat) : Option (List Nat) :=
  match lookupFile files fileId with
  | none => none
  | some data =>
    if valueOffset + valueSize ≤ data.length then
      some ((data.drop valueOffset).take valueSize)
    else none

/-- The engine state, mirroring the Go struct `BitCaskStorageEngine`.  The
`files` field stands for the data directory on disk; `activeLog = none`
models the `nil` active log after `Close`.  The locks, which only serialise
access, have no pure-state content. -/
structure BitCaskStorageEngine where
  keyDir : KeyDirMap
  activeLog : Option Log
  files : List (Nat × List Nat)

/-- Result of a Set/Delete/Close call.  `nilPanic` models the Go runtime
panic that dereferencing the `nil` active log of a closed engine causes. -/
inductive WriteResult where
  | ok
  | writeFailed
  | nilPanic
deriving DecidableEq, Repr

/-- Result of a Get call. -/
inductive GetResult where
  | found (value : List Nat)
  | keyNotFound
  | readError
deriving DecidableEq, Repr

/-- Mirrors Go `BitCaskStorageEngine.Set`: build the record, append it via
`setLogEntry`, and on success upsert the key directory with the returned
value offset.  On append failure the directory is untouched.  There is no
key validation of any kind in the Go code. -/
def BitCaskStorageEngine.Set (s : BitCaskStorageEngine) (w : WriteOutcome) (ts : Int)
    (key value : List Nat) : BitCaskStorageEngine × WriteResult :=
  match s.activeLog with
  | none => (s, .nilPanic)
  | some l =>
    let e := newDataDirFileLogEntry ts key value
    match l.setLogEntry s.files w e with
    | (l', files', none) => ({ s with activeLog := some l', files := files' }, .writeFailed)
    | (l', files', some (valuePosition, _)) =>
      ({ s with
          activeLog := some l'
          files := files'
          keyDir := kdInsert key
            { fileId := l.fileId
              valueSize := e.valueSize.toNat
              valuePosition := valuePosition
              timeStamp := e.timeStamp } s.keyDir }, .ok)

/-- Mirrors Go `BitCaskStorageEngine.Get`: look the key up in the directory,
read the value bytes positionally, and report `keyNotFound` if the key is
absent or the bytes read equal the tombstone sentinel. -/
def BitCaskStorageEngine.Get (s : BitCaskStorageEngine) (key : List Nat) : GetResult :=
  match kdLookup key s.keyDir with
  | none => .keyNotFound
  | some keyData =>
    match getLogValue s.files keyData.fileId keyData.valuePosition keyData.valueSize with
    | none => .readError
    | some value => if value = TOMBSTONE then .keyNotFound else .found value

/-- Mirrors Go `BitCaskStorageEngine.Delete`: a key absent from the
directory is a successful no-op; otherwise a tombstone record is appended
and, only if the append succeeded, the key is removed from the directory. -/
def BitCaskStorageEngine.Delete (s : BitCaskStorageEngine) (w : WriteOutcome) (ts : Int)
    (key : List Nat) : BitCaskStorageEngine × WriteResult :=
  match kdLookup key s.keyDir with
  | none => (s, .ok)
  | some _ =>
    match s.activeLog with
    | none => (s, .nilPanic)
    | some l =>
      let e := newDataDirFileLogEntry ts key TOMBSTONE
      match l.setLogEntry s.files w e with
      | (l', files', none) => ({ s with activeLog := some l', files := files' }, .writeFailed)
      | (l', files', some _) =>
        ({ s with
            activeLog := some l'
            files := files'
            keyDir := kdErase key s.keyDir }, .ok)

/-- Mirrors Go `BitCaskStorageEngine.Close`: the active log handle is closed
and set to `nil` and the inter-process lock released; the key directory is
deliberately NOT cleared (the Go code only carries a comment calling that
optional), and the files stay on disk. -/
def BitCaskStorageEngine.Close (s : BitCaskStorageEngine) : BitCaskStorageEngine × WriteResult :=
  ({ s with activeLog := none }, .ok)

/-- Mirrors Go `NewBitCaskStorageEngine` on a data directory whose current
contents are `existingFiles`: scan the directory, then create and open a new
active log file with id one greater than the largest seen (the Go
special-cases for an empty directory reduce to exactly this). -/
def NewBitCaskStorageEngine (existingFiles : List (Nat × List Nat)) : BitCaskStorageEngine :=
  let scanned := getKeyDir existingFiles
  let nextFileId := scanned.2 + 1
  { keyDir := scanned.1
    activeLog := some { writerPosition := 0, fileId := nextFileId }
    files := existingFiles ++ [(nextFileId, [])] }

/-- An engine freshly opened on an empty (or absent) data directory. -/
def freshEngine : BitCaskStorageEngine := NewBitCaskStorageEngine []

/-! ### Operation sequences (for the close/re-open claim) -/

/-- A data-plane write operation with its wall-clock timestamp. -/
inductive Op where
  | set (key value : List Nat) (ts : Int)
  | del (key : List Nat) (ts : Int)

/-- The timestamp at which an operation executes. -/
def opTs : Op → Int
  | .set _ _ ts => ts
  | .del _ ts => ts

/-- Apply one successful operation to the engine. -/
def applyOp (s : BitCaskStorageEngine) : Op → BitCaskStorageEngine
  | .set k v ts => (s.Set .success ts k v).1
  | .del k ts => (s.Delete .success ts k).1

/-- Apply a sequence of successful operations, first to last. -/
def applyOps (s : BitCaskStorageEngine) : List Op → BitCaskStorageEngine
  | [] => s
  | op :: rest => applyOps (applyOp s op) rest

/-- Well-formedness of one operation: key and value fit the decoder's
2^20-byte sanity bound, the value is not the reserved tombstone sentinel,
and the timestamp is a non-negative `int64` (as `UnixNano` returns). -/
def goodOpB : Op → Bool
  | .set k v ts =>
    decide (k.length ≤ 2 ^ 20) && decide (v.length ≤ 2 ^ 20) &&
      !(decide (v = TOMBSTONE)) && decide (0 ≤ ts) && decide (ts < 2 ^ 63)
  | .del k ts => decide (k.length ≤ 2 ^ 20) && decide (0 ≤ ts) && decide (ts < 2 ^ 63)

/-- Well-formedness of an operation sequence starting no earlier than `t`:
every operation is good and the timestamps strictly increase, as
`time.Now().UnixNano()` yields on a clock with nanosecond resolution. -/
def goodOpsB : Int → List Op → Bool
  | _, [] => true
  | t, op :: rest => goodOpB op && decide (t ≤ opTs op) && goodOpsB (opTs op + 1) rest

/-! ### Record-level view of the log files (proof scaffolding) -/

/-- Byte serialisation of a whole record list. -/
def encodeList (rs : List DataDirFileLogEntry) : List Nat :=
  (rs.map DataDirFileLogEntry.toBytes).flatten

/-- A data directory viewed as record lists instead of raw bytes. -/
abbrev FileRecs : Type := List (Nat × List DataDirFileLogEntry)

/-- Byte view of a record-level directory. -/
def encodeFiles (fr : FileRecs) : List (Nat × List Nat) :=
  fr.map (fun p => (p.1, encodeList p.2))

/-- The size `readEntry` reports for a record: 28 header bytes plus the
decoded key and value sizes. -/
def entryByteSize (e : DataDirFileLogEntry) : Nat :=
  28 + e.keySize.toNat + e.valueSize.toNat

/-- Record-level scan of one file: the byte-level `scanFile` computes
exactly this on `encodeList rs` (proved below). -/
def scanRecs (keyDir : KeyDirMap) (fileId : Nat) (position : Nat) :
    List DataDirFileLogEntry → KeyDirMap
  | [] => keyDir
  | e :: rest =>
    scanRecs (applyRecord keyDir fileId position e) fileId (position + entryByteSize e) rest

/-- Record-level startup scan. -/
def getKeyDirRecs (fr : FileRecs) : KeyDirMap × Nat :=
  fr.foldl (fun acc p => (scanRecs acc.1 p.1 0 p.2, max acc.2 p.1)) ([], 0)

/-- Total byte size of a record list as `readEntry` accounts it. -/
def recsByteSize : List DataDirFileLogEntry → Nat
  | [] => 0
  | e :: rest => entryByteSize e + recsByteSize rest

/-- The key-directory component of the record-level startup scan. -/
def scanAll (keyDir : KeyDirMap) (fr : FileRecs) : KeyDirMap :=
  fr.foldl (fun kd p => scanRecs kd p.1 0 p.2) keyDir

/-- Append one record to the file with the given id, record-level. -/
def appendRec (fr : FileRecs) (fileId : Nat) (e : DataDirFileLogEntry) : FileRecs :=
  fr.map (fun p => if p.1 = fileId then (p.1, p.2 ++ [e]) else p)

/-- Record-level shadow of one engine operation. -/
def stepRecs (s : BitCaskStorageEngine) (fr : FileRecs) : Op → FileRecs
  | .set k v ts =>
    match s.activeLog with
    | none => fr
    | some l => appendRec fr l.fileId (newDataDirFileLogEntry ts k v)
  | .del k ts =>
    match kdLookup k s.keyDir with
    | none => fr
    | some _ =>
      match s.activeLog with
      | none => fr
      | some l => appendRec fr l.fileId (newDataDirFileLogEntry ts k TOMBSTONE)

/-- Run a sequence of operations keeping the record-level shadow of the
files alongside the engine. -/
def runRecs (s : BitCaskStorageEngine) (fr : FileRecs) : List Op → FileRecs
  | [] => fr
  | op :: rest => runRecs (applyOp s op) (stepRecs s fr op) rest

/-- Well-formedness of a record: the size fields agree with the byte
lengths, both lie within the decoder's sanity bound, the checksum fits in
32 bits and the timestamp in a signed 64-bit integer.  Every record the
engine writes (with a `UnixNano` timestamp) satisfies this. -/
def wfEntry (e : DataDirFileLogEntry) : Prop :=
  e.crc < 2 ^ 32 ∧ -(2 ^ 63) ≤ e.timeStamp ∧ e.timeStamp < 2 ^ 63 ∧
    e.keySize = e.key.length ∧ e.valueSize = e.value.length ∧
    e.key.length ≤ 2 ^ 20 ∧ e.value.length ≤ 2 ^ 20

/-- The inductive invariant tying an engine state to the record-level view
`fr` of its files, with every timestamp on disk or in the directory below
`T`: the byte files are the encoding of `fr`; all records are well formed;
the active log is the last file, has the largest id, and its tracked write
position is the file's length; and the startup scan of the files
reconstructs exactly the in-memory key directory. -/
structure EngineInv (s : BitCaskStorageEngine) (fr : FileRecs) (T : Int) : Prop where
  files_eq : s.files = encodeFiles fr
  wf_all : ∀ p ∈ fr, ∀ e ∈ p.2, wfEntry e
  ts_lt : ∀ p ∈ fr, ∀ e ∈ p.2, e.timeStamp < T
  active : ∃ frInit aid arecs,
    fr = frInit ++ [(aid, arecs)] ∧
      s.activeLog = some { writerPosition := (encodeList arecs).length, fileId := aid } ∧
      (∀ p ∈ frInit, p.1 < aid) ∧ (getKeyDirRecs fr).2 = aid
  scan_eq : ∀ k, kdLookup k (getKeyDirRecs fr).1 = kdLookup k s.keyDir
  kd_ts : ∀ k e, kdLookup k s.keyDir = some e → e.timeStamp < T
  kd_fid : ∀ k e, kdLookup k s.keyDir = some e → e.fileId ≤ (getKeyDirRecs fr).2

/-! ### Lemmas: big-endian codec -/

theorem beBytes_length (w n : Nat) : (beBytes w n).length = w := by
  induction w generalizing n with
  | zero => rfl
  | succ w ih => simp [beBytes, ih]

theorem beVal_foldl (l : List Nat) (a : Nat) :
    l.foldl (fun acc b => acc * 256 + b % 256) a =
      a * 256 ^ l.length + l.foldl (fun acc b => acc * 256 + b % 256) 0 := by
  induction l generalizing a with
  | nil => simp
  | cons b l ih =>
    simp only [List.foldl_cons, List.length_cons]
    rw [ih (a * 256 + b % 256), ih (0 * 256 + b % 256)]
    ring

theorem beVal_beBytes (w n : Nat) : beVal (beBytes w n) = n % 2 ^ (8 * w) := by
  induction w generalizing n with
  | zero =>
    simp only [beBytes, beVal, List.foldl_nil, Nat.mul_zero, Nat.pow_zero]
    omega
  | succ w ih =>
    have h256 : (256 : Nat) ^ w = 2 ^ (8 * w) := by
      rw [show (256 : Nat) = 2 ^ 8 from rfl, ← pow_mul]
    have hmm : n / 2 ^ (8 * w) % 256 % 256 = n / 2 ^ (8 * w) % 256 := Nat.mod_mod_of_dvd _ dvd_rfl
    simp only [beBytes, beVal, List.foldl_cons]
    rw [beVal_foldl, beBytes_length, Nat.zero_mul, Nat.zero_add, hmm]
    have : beVal (beBytes w n) = n % 2 ^ (8 * w) := ih n
    rw [beVal] at this
    rw [this, h256]
    have hsucc : 2 ^ (8 * (w + 1)) = 2 ^ (8 * w) * 256 := by
      rw [Nat.mul_add, Nat.mul_one, pow_add]
      rfl
    rw [hsucc, Nat.mod_mul]
    ring

theorem beVal_lt (w n : Nat) : beVal (beBytes w n) < 2 ^ (8 * w) := by
  rw [beVal_beBytes]
  exact Nat.mod_lt _ (Nat.pos_pow_of_pos _ (by norm_num))

theorem decodeI64_encodeI64 (x : Int) (h1 : -(2 ^ 63) ≤ x) (h2 : x < 2 ^ 63) :
    decodeI64 (encodeI64 x) = x := by
  have hnn : 0 ≤ x.emod (2 ^ 64) := Int.emod_nonneg x (by norm_num)
  have hub : x.emod (2 ^ 64) < 2 ^ 64 := Int.emod_lt_of_pos x (by norm_num)
  obtain ⟨q, hq⟩ : ∃ q, x.emod (2 ^ 64) = x - 2 ^ 64 * q := ⟨x / 2 ^ 64, Int.emod_def x _⟩
  unfold decodeI64 encodeI64
  rw [beVal_beBytes]
  have hm : (x.emod (2 ^ 64)).toNat % 2 ^ (8 * 8) = (x.emod (2 ^ 64)).toNat := by
    apply Nat.mod_eq_of_lt
    have h88 : (8 * 8 : Nat) = 64 := by norm_num
    rw [h88]
    omega
  rw [hm]
  split_ifs
  · omega
  · omega

theorem encodeI64_length (x : Int) : (encodeI64 x).length = 8 := beBytes_length 8 _

theorem toBytes_length (e : DataDirFileLogEntry) :
    e.toBytes.length = 28 + e.key.length + e.value.length := by
  simp [DataDirFileLogEntry.toBytes, beBytes_length, encodeI64_length]
  omega

/-! ### Lemmas: decoding a record out of a byte stream -/

theorem slice_of_append (a b c : List Nat) (n m : Nat) (hn : a.length = n)
    (hm : b.length = m) : ((a ++ (b ++ c)).drop n).take m = b := by
  rw [List.drop_left' hn, List.take_left' hm]

theorem readEntry_eof (data : List Nat) (position : Nat) (h : data.length < position + 28) :
    readEntry data position = .eof := by
  rw [readEntry, if_pos h]

theorem readEntry_append (pre post : List Nat) (e : DataDirFileLogEntry)
    (hcrc : e.crc < 2 ^ 32) (hts1 : -(2 ^ 63) ≤ e.timeStamp) (hts2 : e.timeStamp < 2 ^ 63)
    (hk : e.keySize = e.key.length) (hv : e.valueSize = e.value.length)
    (hkb : e.key.length ≤ 2 ^ 20) (hvb : e.value.length ≤ 2 ^ 20) :
    readEntry (pre ++ e.toBytes ++ post) pre.length =
      .ok e (28 + e.keySize.toNat + e.valueSize.toNat) := by
  have hktn : e.keySize.toNat = e.key.length := by rw [hk]; exact Int.toNat_natCast _
  have hvtn : e.valueSize.toNat = e.value.length := by rw [hv]; exact Int.toNat_natCast _
  have hlen : (pre ++ e.toBytes ++ post).length =
      pre.length + (28 + e.key.length + e.value.length) + post.length := by
    simp only [List.length_append, toBytes_length]
  have hsplit : e.toBytes ++ post =
      beBytes 4 e.crc ++ (encodeI64 e.timeStamp ++ (encodeI64 e.keySize ++
        (encodeI64 e.valueSize ++ (e.key ++ (e.value ++ post))))) := by
    simp [DataDirFileLogEntry.toBytes, List.append_assoc]
  have hbase : (pre ++ e.toBytes ++ post).drop pre.length = e.toBytes ++ post := by
    rw [List.append_assoc]
    exact List.drop_left _ _
  have hdropAt : ∀ k : Nat, (pre ++ e.toBytes ++ post).drop (pre.length + k) =
      (e.toBytes ++ post).drop k := by
    intro k
    rw [← List.drop_drop, hbase]
  have hd4 : (e.toBytes ++ post).drop 4 =
      encodeI64 e.timeStamp ++ (encodeI64 e.keySize ++
        (encodeI64 e.valueSize ++ (e.key ++ (e.value ++ post)))) := by
    rw [hsplit]
    exact List.drop_left' (beBytes_length 4 _)
  have hd12 : (e.toBytes ++ post).drop 12 =
      encodeI64 e.keySize ++ (encodeI64 e.valueSize ++ (e.key ++ (e.value ++ post))) := by
    rw [show (12 : Nat) = 4 + 8 from rfl, ← List.drop_drop, hd4]
    exact List.drop_left' (encodeI64_length _)
  have hd20 : (e.toBytes ++ post).drop 20 =
      encodeI64 e.valueSize ++ (e.key ++ (e.value ++ post)) := by
    rw [show (20 : Nat) = 12 + 8 from rfl, ← List.drop_drop, hd12]
    exact List.drop_left' (encodeI64_length _)
  have hd28 : (e.toBytes ++ post).drop 28 = e.key ++ (e.value ++ post) := by
    rw [show (28 : Nat) = 20 + 8 from rfl, ← List.drop_drop, hd20]
    exact List.drop_left' (encodeI64_length _)
  have hcrcSlice : ((pre ++ e.toBytes ++ post).drop pre.length).take 4 = beBytes 4 e.crc := by
    rw [hbase, hsplit]
    exact List.take_left' (beBytes_length 4 _)
  have htsSlice : parsedField (pre ++ e.toBytes ++ post) (pre.length + 4) =
      decodeI64 (encodeI64 e.timeStamp) := by
    rw [parsedField, hdropAt 4, hd4, List.take_left' (encodeI64_length _)]
  have hkszSlice : parsedField (pre ++ e.toBytes ++ post) (pre.length + 12) =
      decodeI64 (encodeI64 e.keySize) := by
    rw [parsedField, hdropAt 12, hd12, List.take_left' (encodeI64_length _)]
  have hvszSlice : parsedField (pre ++ e.toBytes ++ post) (pre.length + 20) =
      decodeI64 (encodeI64 e.valueSize) := by
    rw [parsedField, hdropAt 20, hd20, List.take_left' (encodeI64_length _)]
  have hkeySlice : ((pre ++ e.toBytes ++ post).drop (pre.length + 28)).take e.key.length =
      e.key := by
    rw [hdropAt 28, hd28]
    exact List.take_left _ _
  have hvalSlice : ((pre ++ e.toBytes ++ post).drop
      (pre.length + (28 + e.key.length))).take e.value.length = e.value := by
    rw [hdropAt (28 + e.key.length), ← List.drop_drop, hd28, List.drop_left, List.take_left]
  have hksz0 : (0 : Int) ≤ e.keySize := by rw [hk]; exact_mod_cast Nat.zero_le _
  have hvsz0 : (0 : Int) ≤ e.valueSize := by rw [hv]; exact_mod_cast Nat.zero_le _
  have hkszB : e.keySize ≤ 2 ^ 20 := by
    rw [hk]
    exact_mod_cast hkb
  have hvszB : e.valueSize ≤ 2 ^ 20 := by
    rw [hv]
    exact_mod_cast hvb
  have hkszRT : decodeI64 (encodeI64 e.keySize) = e.keySize := by
    apply decodeI64_encodeI64 <;> omega
  have hvszRT : decodeI64 (encodeI64 e.valueSize) = e.valueSize := by
    apply decodeI64_encodeI64 <;> omega
  have htsRT : decodeI64 (encodeI64 e.timeStamp) = e.timeStamp :=
    decodeI64_encodeI64 _ hts1 hts2
  have hcrcRT : beVal (beBytes 4 e.crc) = e.crc := by
    rw [beVal_beBytes]
    apply Nat.mod_eq_of_lt
    norm_num at hcrc ⊢
    omega
  rw [readEntry]
  rw [if_neg (by omega)]
  rw [hkszSlice, hvszSlice, hkszRT, hvszRT]
  rw [if_neg (by push_neg; exact ⟨hksz0, hvsz0, hkszB, hvszB⟩)]
  rw [hktn, hvtn]
  rw [if_neg (by omega), if_neg (by omega)]
  rw [hcrcSlice, hcrcRT, htsSlice, htsRT]
  have hvalSlice' : ((pre ++ e.toBytes ++ post).drop
      (pre.length + 28 + e.key.length)).take e.value.length = e.value := by
    rw [Nat.add_assoc]
    exact hvalSlice
  rw [hkeySlice, hvalSlice']

/-! ### Lemmas: CRC-32 stays a 32-bit value -/

theorem crc32Round_lt (r : Nat) (h : r < 2 ^ 32) : crc32Round r < 2 ^ 32 := by
  rw [crc32Round]
  split_ifs
  · exact Nat.xor_lt_two_pow (by omega) (by norm_num)
  · omega

theorem crc32Byte_lt (r b : Nat) (h : r < 2 ^ 32) : crc32Byte r b < 2 ^ 32 := by
  have h0 : r ^^^ b % 256 < 2 ^ 32 :=
    Nat.xor_lt_two_pow h (lt_trans (Nat.mod_lt _ (by norm_num)) (by norm_num))
  rw [crc32Byte]
  exact crc32Round_lt _ (crc32Round_lt _ (crc32Round_lt _ (crc32Round_lt _ (crc32Round_lt _
    (crc32Round_lt _ (crc32Round_lt _ (crc32Round_lt _ h0)))))))

theorem crc32_foldl_lt (data : List Nat) (r : Nat) (h : r < 2 ^ 32) :
    data.foldl crc32Byte r < 2 ^ 32 := by
  induction data generalizing r with
  | nil => exact h
  | cons b rest ih => exact ih _ (crc32Byte_lt r b h)

theorem crc32_lt (data : List Nat) : crc32 data < 2 ^ 32 := by
  rw [crc32]
  exact Nat.xor_lt_two_pow (crc32_foldl_lt data _ (by norm_num)) (by norm_num)

theorem wfEntry_new (ts : Int) (key value : List Nat) (hkb : key.length ≤ 2 ^ 20)
    (hvb : value.length ≤ 2 ^ 20) (hts1 : 0 ≤ ts) (hts2 : ts < 2 ^ 63) :
    wfEntry (newDataDirFileLogEntry ts key value) := by
  refine ⟨crc32_lt value, by simp [newDataDirFileLogEntry]; omega,
    by simpa [newDataDirFileLogEntry] using hts2, rfl, rfl, hkb, hvb⟩

/-! ### Lemmas: the key-directory map -/

theorem kdLookup_kdErase_self (key : List Nat) (m : KeyDirMap) :
    kdLookup key (kdErase key m) = none := by
  induction m with
  | nil => rfl
  | cons p rest ih =>
    obtain ⟨k, e⟩ := p
    rw [kdErase]
    split_ifs with h
    · exact ih
    · rw [kdLookup, if_neg h]
      exact ih

theorem kdLookup_kdErase_ne (key k' : List Nat) (m : KeyDirMap) (h : k' ≠ key) :
    kdLookup k' (kdErase key m) = kdLookup k' m := by
  induction m with
  | nil => rfl
  | cons p rest ih =>
    obtain ⟨k, e⟩ := p
    rw [kdErase]
    split_ifs with h1
    · rw [ih, kdLookup, if_neg (fun hh => h (hh.symm.trans h1))]
    · rw [kdLookup, kdLookup]
      split_ifs with h2
      · rfl
      · exact ih

theorem kdLookup_kdInsert_self (key : List Nat) (e : KeyDir) (m : KeyDirMap) :
    kdLookup key (kdInsert key e m) = some e := by
  rw [kdInsert, kdLookup, if_pos rfl]

theorem kdLookup_kdInsert_ne (key k' : List Nat) (e : KeyDir) (m : KeyDirMap)
    (h : k' ≠ key) : kdLookup k' (kdInsert key e m) = kdLookup k' m := by
  rw [kdInsert, kdLookup, if_neg (fun hh => h hh.symm)]
  exact kdLookup_kdErase_ne key k' m h

/-! ### Lemmas: byte-level scan equals record-level scan -/

theorem encodeList_nil : encodeList [] = [] := rfl

theorem encodeList_cons (e : DataDirFileLogEntry) (rs : List DataDirFileLogEntry) :
    encodeList (e :: rs) = e.toBytes ++ encodeList rs := by
  simp [encodeList]

theorem encodeList_append (rs ss : List DataDirFileLogEntry) :
    encodeList (rs ++ ss) = encodeList rs ++ encodeList ss := by
  simp [encodeList]

theorem length_le_encodeList_length (rs : List DataDirFileLogEntry) :
    rs.length ≤ (encodeList rs).length := by
  induction rs with
  | nil => simp [encodeList]
  | cons e rest ih =>
    rw [encodeList_cons]
    simp only [List.length_append, List.length_cons, toBytes_length]
    omega

theorem readEntry_append_wf (pre post : List Nat) (e : DataDirFileLogEntry)
    (h : wfEntry e) :
    readEntry (pre ++ e.toBytes ++ post) pre.length = .ok e (entryByteSize e) := by
  obtain ⟨h1, h2, h3, h4, h5, h6, h7⟩ := h
  exact readEntry_append pre post e h1 h2 h3 h4 h5 h6 h7

theorem wf_toBytes_length (e : DataDirFileLogEntry) (h : wfEntry e) :
    e.toBytes.length = entryByteSize e := by
  obtain ⟨h1, h2, h3, h4, h5, h6, h7⟩ := h
  rw [toBytes_length, entryByteSize, h4, h5, Int.toNat_natCast, Int.toNat_natCast]

theorem recsByteSize_eq_length (rs : List DataDirFileLogEntry)
    (h : ∀ e ∈ rs, wfEntry e) : recsByteSize rs = (encodeList rs).length := by
  induction rs with
  | nil => rfl
  | cons e rest ih =>
    rw [recsByteSize, encodeList_cons]
    simp only [List.length_append]
    rw [wf_toBytes_length e (h e (List.mem_cons_self _ _)),
      ih (fun x hx => h x (List.mem_cons_of_mem _ hx))]

theorem scanAux_encodeList (rs : List DataDirFileLogEntry) :
    ∀ (fuel : Nat) (keyDir : KeyDirMap) (fileId : Nat) (pre : List Nat)
      (data : List Nat) (position : Nat),
      (∀ e ∈ rs, wfEntry e) → rs.length < fuel → data = pre ++ encodeList rs →
      position = pre.length →
      scanFileAux fuel keyDir fileId data position = scanRecs keyDir fileId position rs := by
  induction rs with
  | nil =>
    intro fuel keyDir fileId pre data position _ hfuel hdata hpos
    cases fuel with
    | zero => omega
    | succ f =>
      rw [scanFileAux, readEntry_eof data position
        (by rw [hdata, hpos, encodeList_nil]; simp)]
      rfl
  | cons e rest ih =>
    intro fuel keyDir fileId pre data position hwf hfuel hdata hpos
    cases fuel with
    | zero => simp at hfuel
    | succ f =>
      have hwfe : wfEntry e := hwf e (List.mem_cons_self _ _)
      have hdata' : data = pre ++ e.toBytes ++ encodeList rest := by
        rw [hdata, encodeList_cons, List.append_assoc]
      rw [scanFileAux, hpos, hdata', readEntry_append_wf pre (encodeList rest) e hwfe]
      rw [scanRecs]
      exact ih f _ fileId (pre ++ e.toBytes) _ _
        (fun x hx => hwf x (List.mem_cons_of_mem _ hx))
        (by simpa using hfuel) (by rw [List.append_assoc])
        (by rw [List.length_append, wf_toBytes_length e hwfe])

theorem scanFile_encodeList (keyDir : KeyDirMap) (fileId : Nat)
    (rs : List DataDirFileLogEntry) (h : ∀ e ∈ rs, wfEntry e) :
    scanFile keyDir fileId (encodeList rs) = scanRecs keyDir fileId 0 rs := by
  rw [scanFile]
  exact scanAux_encodeList rs _ keyDir fileId [] _ _ h
    (Nat.lt_succ_of_le (length_le_encodeList_length rs)) (by simp) rfl

theorem getKeyDir_encodeFiles_aux (fr : FileRecs) :
    ∀ acc : KeyDirMap × Nat, (∀ p ∈ fr, ∀ e ∈ p.2, wfEntry e) →
      (encodeFiles fr).foldl (fun a p => (scanFile a.1 p.1 p.2, max a.2 p.1)) acc =
        fr.foldl (fun a p => (scanRecs a.1 p.1 0 p.2, max a.2 p.1)) acc := by
  induction fr with
  | nil => intro acc _; rfl
  | cons p rest ih =>
    intro acc hwf
    obtain ⟨fid, rs⟩ := p
    simp only [encodeFiles, List.map_cons, List.foldl_cons]
    rw [scanFile_encodeList acc.1 fid rs (hwf (fid, rs) (List.mem_cons_self _ _))]
    exact ih _ (fun q hq e he => hwf q (List.mem_cons_of_mem _ hq) e he)

theorem getKeyDir_encodeFiles (fr : FileRecs) (h : ∀ p ∈ fr, ∀ e ∈ p.2, wfEntry e) :
    getKeyDir (encodeFiles fr) = getKeyDirRecs fr := by
  rw [getKeyDir, getKeyDirRecs]
  exact getKeyDir_encodeFiles_aux fr ([], 0) h

theorem getKeyDirRecs_fst_aux (fr : FileRecs) :
    ∀ acc : KeyDirMap × Nat,
      (fr.foldl (fun a p => (scanRecs a.1 p.1 0 p.2, max a.2 p.1)) acc).1 =
        scanAll acc.1 fr := by
  induction fr with
  | nil => intro acc; rfl
  | cons p rest ih =>
    intro acc
    rw [List.foldl_cons, ih]
    rfl

theorem getKeyDirRecs_fst (fr : FileRecs) : (getKeyDirRecs fr).1 = scanAll [] fr := by
  rw [getKeyDirRecs]
  exact getKeyDirRecs_fst_aux fr ([], 0)

theorem getKeyDirRecs_snd_aux (fr : FileRecs) :
    ∀ acc : KeyDirMap × Nat,
      (fr.foldl (fun a p => (scanRecs a.1 p.1 0 p.2, max a.2 p.1)) acc).2 =
        (fr.map Prod.fst).foldl max acc.2 := by
  induction fr with
  | nil => intro acc; rfl
  | cons p rest ih =>
    intro acc
    rw [List.foldl_cons, ih, List.map_cons, List.foldl_cons]

theorem getKeyDirRecs_snd (fr : FileRecs) :
    (getKeyDirRecs fr).2 = (fr.map Prod.fst).foldl max 0 := by
  rw [getKeyDirRecs]
  exact getKeyDirRecs_snd_aux fr ([], 0)

/-! ### Lemmas: appending one record to the active (last) file -/

theorem scanRecs_snoc (rs : List DataDirFileLogEntry) (e : DataDirFileLogEntry) :
    ∀ (keyDir : KeyDirMap) (fileId position : Nat),
      scanRecs keyDir fileId position (rs ++ [e]) =
        applyRecord (scanRecs keyDir fileId position rs) fileId
          (position + recsByteSize rs) e := by
  induction rs with
  | nil =>
    intro keyDir fileId position
    rw [recsByteSize]
    rfl
  | cons r rest ih =>
    intro keyDir fileId position
    rw [List.cons_append, scanRecs, scanRecs, ih, recsByteSize]
    rw [Nat.add_assoc]

theorem scanAll_append (keyDir : KeyDirMap) (fr1 fr2 : FileRecs) :
    scanAll keyDir (fr1 ++ fr2) = scanAll (scanAll keyDir fr1) fr2 := by
  rw [scanAll, scanAll, scanAll, List.foldl_append]

theorem appendRec_last (frInit : FileRecs) (aid : Nat) (arecs : List DataDirFileLogEntry)
    (e : DataDirFileLogEntry) (h : ∀ p ∈ frInit, p.1 < aid) :
    appendRec (frInit ++ [(aid, arecs)]) aid e = frInit ++ [(aid, arecs ++ [e])] := by
  rw [appendRec, List.map_append]
  congr 1
  · have heq : List.map (fun p => if p.1 = aid then (p.1, p.2 ++ [e]) else p) frInit =
        List.map id frInit :=
      List.map_congr_left (fun p hp => by rw [if_neg (Nat.ne_of_lt (h p hp))]; rfl)
    rw [heq, List.map_id]
  · simp

theorem appendRec_map_fst (fr : FileRecs) (fileId : Nat) (e : DataDirFileLogEntry) :
    (appendRec fr fileId e).map Prod.fst = fr.map Prod.fst := by
  rw [appendRec, List.map_map]
  apply List.map_congr_left
  intro p _
  by_cases h : p.1 = fileId <;> simp [h]

theorem encodeFiles_appendRec (fr : FileRecs) (fileId : Nat) (e : DataDirFileLogEntry) :
    encodeFiles (appendRec fr fileId e) =
      appendToFile (encodeFiles fr) fileId e.toBytes := by
  rw [encodeFiles, appendRec, appendToFile, encodeFiles, List.map_map, List.map_map]
  apply List.map_congr_left
  intro p _
  by_cases h : p.1 = fileId <;> simp [h, encodeList_append, encodeList_cons, encodeList_nil]

theorem lookupFile_append_ne (files : List (Nat × List Nat)) (fileId nid : Nat)
    (x : List Nat) (h : fileId ≠ nid) :
    lookupFile (files ++ [(nid, x)]) fileId = lookupFile files fileId := by
  rw [lookupFile, lookupFile, List.find?_append]
  cases files.find? (fun p => p.1 = fileId) with
  | some p => rfl
  | none =>
    simp only [Option.none_or]
    rw [List.find?]
    simp [h.symm, Ne.symm h]

/-! ### Lemmas: one-step unfoldings of the engine operations -/

theorem Set_success_eq (s : BitCaskStorageEngine) (l : Log) (ts : Int)
    (key value : List Nat) (hl : s.activeLog = some l) :
    s.Set .success ts key value =
      ({ keyDir := kdInsert key
            { fileId := l.fileId
              valueSize := value.length
              valuePosition := l.writerPosition + 28 + key.length
              timeStamp := ts } s.keyDir
         activeLog := some
            { writerPosition := l.writerPosition + (28 + key.length + value.length)
              fileId := l.fileId }
         files := appendToFile s.files l.fileId
            (newDataDirFileLogEntry ts key value).toBytes }, .ok) := by
  rw [BitCaskStorageEngine.Set, hl]
  simp only [Log.setLogEntry]
  rw [toBytes_length]
  simp [newDataDirFileLogEntry, Int.toNat_natCast]

theorem Delete_absent_eq (s : BitCaskStorageEngine) (w : WriteOutcome) (ts : Int)
    (key : List Nat) (h : kdLookup key s.keyDir = none) :
    s.Delete w ts key = (s, .ok) := by
  rw [BitCaskStorageEngine.Delete, h]

theorem Delete_present_success_eq (s : BitCaskStorageEngine) (l : Log) (kd : KeyDir)
    (ts : Int) (key : List Nat) (hk : kdLookup key s.keyDir = some kd)
    (hl : s.activeLog = some l) :
    s.Delete .success ts key =
      ({ keyDir := kdErase key s.keyDir
         activeLog := some
            { writerPosition := l.writerPosition + (28 + key.length + TOMBSTONE.length)
              fileId := l.fileId }
         files := appendToFile s.files l.fileId
            (newDataDirFileLogEntry ts key TOMBSTONE).toBytes }, .ok) := by
  rw [BitCaskStorageEngine.Delete, hk, hl]
  simp only [Log.setLogEntry]
  rw [toBytes_length]
  simp [newDataDirFileLogEntry]

/-! ### Lemmas: the engine invariant -/

theorem EngineInv_mono (s : BitCaskStorageEngine) (fr : FileRecs) (T T' : Int)
    (h : EngineInv s fr T) (hle : T ≤ T') : EngineInv s fr T' where
  files_eq := h.files_eq
  wf_all := h.wf_all
  ts_lt := fun p hp e he => lt_of_lt_of_le (h.ts_lt p hp e he) hle
  active := h.active
  scan_eq := h.scan_eq
  kd_ts := fun k e hk => lt_of_lt_of_le (h.kd_ts k e hk) hle
  kd_fid := h.kd_fid

theorem scanAll_singleton (keyDir : KeyDirMap) (fileId : Nat)
    (rs : List DataDirFileLogEntry) : scanAll keyDir [(fileId, rs)] = scanRecs keyDir fileId 0 rs := rfl

theorem kdLookup_kdErase_some (key k' : List Nat) (m : KeyDirMap) (e : KeyDir)
    (h : kdLookup k' (kdErase key m) = some e) : kdLookup k' m = some e := by
  by_cases hk : k' = key
  · rw [hk, kdLookup_kdErase_self] at h
    exact absurd h (by simp)
  · rw [kdLookup_kdErase_ne key k' m hk] at h
    exact h

theorem scanAll_last_decomp (fr : FileRecs) (frInit : FileRecs) (aid : Nat)
    (arecs : List DataDirFileLogEntry) (hfr : fr = frInit ++ [(aid, arecs)]) :
    (getKeyDirRecs fr).1 = scanRecs (scanAll [] frInit) aid 0 arecs := by
  rw [getKeyDirRecs_fst, hfr, scanAll_append, scanAll_singleton]

theorem wfEntry_tombstone (ts : Int) (key : List Nat) (hkb : key.length ≤ 2 ^ 20)
    (hts1 : 0 ≤ ts) (hts2 : ts < 2 ^ 63) :
    wfEntry (newDataDirFileLogEntry ts key TOMBSTONE) :=
  wfEntry_new ts key TOMBSTONE hkb (by norm_num [TOMBSTONE]) hts1 hts2

theorem applyRecord_tomb (keyDir : KeyDirMap) (fileId position : Nat)
    (e : DataDirFileLogEntry) (hv : e.value = TOMBSTONE) :
    applyRecord keyDir fileId position e = kdErase e.key keyDir := by
  rw [applyRecord, if_pos hv]

theorem applyRecord_fresh (keyDir : KeyDirMap) (fileId position : Nat)
    (e : DataDirFileLogEntry) (hv : e.value ≠ TOMBSTONE)
    (h : kdLookup e.key keyDir = none) :
    applyRecord keyDir fileId position e =
      kdInsert e.key
        { fileId := fileId
          valueSize := e.valueSize.toNat
          valuePosition := position + 28 + e.keySize.toNat
          timeStamp := e.timeStamp } keyDir := by
  simp only [applyRecord, if_neg hv, h]

theorem applyRecord_newer (keyDir : KeyDirMap) (fileId position : Nat)
    (e : DataDirFileLogEntry) (old : KeyDir) (hv : e.value ≠ TOMBSTONE)
    (h : kdLookup e.key keyDir = some old) (hts : old.timeStamp < e.timeStamp) :
    applyRecord keyDir fileId position e =
      kdInsert e.key
        { fileId := fileId
          valueSize := e.valueSize.toNat
          valuePosition := position + 28 + e.keySize.toNat
          timeStamp := e.timeStamp } keyDir := by
  simp only [applyRecord, if_neg hv, h, if_pos hts]

theorem applyRecord_stale (keyDir : KeyDirMap) (fileId position : Nat)
    (e : DataDirFileLogEntry) (old : KeyDir) (hv : e.value ≠ TOMBSTONE)
    (h : kdLookup e.key keyDir = some old) (hts : ¬ old.timeStamp < e.timeStamp) :
    applyRecord keyDir fileId position e = keyDir := by
  simp only [applyRecord, if_neg hv, h, if_neg hts]

theorem scan_after_append (fr frInit : FileRecs) (aid : Nat)
    (arecs : List DataDirFileLogEntry) (e : DataDirFileLogEntry)
    (hfr : fr = frInit ++ [(aid, arecs)]) (hlt : ∀ p ∈ frInit, p.1 < aid)
    (hwfa : ∀ x ∈ arecs, wfEntry x) :
    (getKeyDirRecs (appendRec fr aid e)).1 =
      applyRecord ((getKeyDirRecs fr).1) aid (encodeList arecs).length e := by
  have hfr' : appendRec fr aid e = frInit ++ [(aid, arecs ++ [e])] := by
    rw [hfr]
    exact appendRec_last frInit aid arecs e hlt
  rw [scanAll_last_decomp _ frInit aid (arecs ++ [e]) hfr', scanRecs_snoc,
    ← scanAll_last_decomp fr frInit aid arecs hfr, Nat.zero_add,
    recsByteSize_eq_length arecs hwfa]

theorem maxid_after_append (fr : FileRecs) (fileId : Nat) (e : DataDirFileLogEntry) :
    (getKeyDirRecs (appendRec fr fileId e)).2 = (getKeyDirRecs fr).2 := by
  rw [getKeyDirRecs_snd, getKeyDirRecs_snd, appendRec_map_fst]

theorem EngineInv_set (s : BitCaskStorageEngine) (fr : FileRecs) (T ts : Int)
    (k v : List Nat) (hInv : EngineInv s fr T) (hkb : k.length ≤ 2 ^ 20)
    (hvb : v.length ≤ 2 ^ 20) (hvt : v ≠ TOMBSTONE) (ht0 : 0 ≤ ts) (ht1 : ts < 2 ^ 63)
    (hT : T ≤ ts) :
    EngineInv (s.Set .success ts k v).1 (stepRecs s fr (.set k v ts)) (ts + 1) := by
  obtain ⟨frI, aid, arecs, hfr, hlog, hlt, hmax⟩ := hInv.active
  have hwfe : wfEntry (newDataDirFileLogEntry ts k v) := wfEntry_new ts k v hkb hvb ht0 ht1
  have hwfa : ∀ x ∈ arecs, wfEntry x := fun x hx =>
    hInv.wf_all (aid, arecs) (by rw [hfr]; simp) x hx
  have hset := Set_success_eq s ⟨(encodeList arecs).length, aid⟩ ts k v hlog
  have hstep : stepRecs s fr (.set k v ts) =
      appendRec fr aid (newDataDirFileLogEntry ts k v) := by
    rw [stepRecs, hlog]
  have hfr' : appendRec fr aid (newDataDirFileLogEntry ts k v) =
      frI ++ [(aid, arecs ++ [newDataDirFileLogEntry ts k v])] := by
    rw [hfr]
    exact appendRec_last frI aid arecs _ hlt
  have hscan' : (getKeyDirRecs (appendRec fr aid (newDataDirFileLogEntry ts k v))).1 =
      applyRecord ((getKeyDirRecs fr).1) aid (encodeList arecs).length
        (newDataDirFileLogEntry ts k v) :=
    scan_after_append fr frI aid arecs _ hfr hlt hwfa
  have hmax' : (getKeyDirRecs (appendRec fr aid (newDataDirFileLogEntry ts k v))).2 = aid := by
    rw [maxid_after_append, hmax]
  refine ⟨?_, ?_, ?_, ?_, ?_, ?_, ?_⟩
  · -- files_eq
    rw [hset]
    show appendToFile s.files aid (newDataDirFileLogEntry ts k v).toBytes =
      encodeFiles (stepRecs s fr (.set k v ts))
    rw [hstep, encodeFiles_appendRec, hInv.files_eq]
  · -- wf_all
    intro p hp x hx
    rw [hstep, hfr'] at hp
    rcases List.mem_append.1 hp with hp | hp
    · exact hInv.wf_all p (by rw [hfr]; exact List.mem_append_left _ hp) x hx
    · rw [List.mem_singleton] at hp
      subst hp
      rcases List.mem_append.1 hx with hx | hx
      · exact hwfa x hx
      · rw [List.mem_singleton] at hx
        subst hx
        exact hwfe
  · -- ts_lt
    intro p hp x hx
    rw [hstep, hfr'] at hp
    rcases List.mem_append.1 hp with hp | hp
    · have := hInv.ts_lt p (by rw [hfr]; exact List.mem_append_left _ hp) x hx
      omega
    · rw [List.mem_singleton] at hp
      subst hp
      rcases List.mem_append.1 hx with hx | hx
      · have := hInv.ts_lt (aid, arecs) (by rw [hfr]; simp) x hx
        omega
      · rw [List.mem_singleton] at hx
        subst hx
        show (newDataDirFileLogEntry ts k v).timeStamp < ts + 1
        simp [newDataDirFileLogEntry]
  · -- active
    refine ⟨frI, aid, arecs ++ [newDataDirFileLogEntry ts k v], ?_, ?_, hlt, ?_⟩
    · rw [hstep, hfr']
    · rw [hset]
      show some _ = _
      have hlen : (encodeList (arecs ++ [newDataDirFileLogEntry ts k v])).length =
          (encodeList arecs).length + (28 + k.length + v.length) := by
        rw [encodeList_append, List.length_append, encodeList_cons, encodeList_nil,
          List.append_nil, toBytes_length]
        simp [newDataDirFileLogEntry]
      rw [hlen]
    · rw [hstep]
      exact hmax'
  · -- scan_eq
    intro k'
    rw [hstep, hscan', hset]
    show kdLookup k' (applyRecord ((getKeyDirRecs fr).1) aid (encodeList arecs).length
      (newDataDirFileLogEntry ts k v)) = kdLookup k' (kdInsert k
        { fileId := aid
          valueSize := v.length
          valuePosition := (encodeList arecs).length + 28 + k.length
          timeStamp := ts }
        s.keyDir)
    have hvt' : (newDataDirFileLogEntry ts k v).value ≠ TOMBSTONE := by
      simpa [newDataDirFileLogEntry] using hvt
    have hkeq : (newDataDirFileLogEntry ts k v).key = k := rfl
    have hscank : kdLookup (newDataDirFileLogEntry ts k v).key ((getKeyDirRecs fr).1) =
        kdLookup k s.keyDir := by
      rw [hkeq]
      exact hInv.scan_eq k
    have hnewE :
        ({ fileId := aid
           valueSize := (newDataDirFileLogEntry ts k v).valueSize.toNat
           valuePosition := (encodeList arecs).length + 28 +
             (newDataDirFileLogEntry ts k v).keySize.toNat
           timeStamp := (newDataDirFileLogEntry ts k v).timeStamp } : KeyDir) =
          { fileId := aid
            valueSize := v.length
            valuePosition := (encodeList arecs).length + 28 + k.length
            timeStamp := ts } := by
      simp [newDataDirFileLogEntry, Int.toNat_natCast]
    rcases hcase : kdLookup k s.keyDir with _ | old
    · rw [applyRecord_fresh _ _ _ _ hvt' (hscank.trans hcase), hkeq, hnewE]
      by_cases hkk : k' = k
      · rw [hkk, kdLookup_kdInsert_self, kdLookup_kdInsert_self]
      · rw [kdLookup_kdInsert_ne _ _ _ _ hkk, kdLookup_kdInsert_ne _ _ _ _ hkk]
        exact hInv.scan_eq k'
    · have hold : old.timeStamp < (newDataDirFileLogEntry ts k v).timeStamp := by
        have := hInv.kd_ts k old hcase
        show old.timeStamp < ts
        omega
      rw [applyRecord_newer _ _ _ _ old hvt' (hscank.trans hcase) hold, hkeq, hnewE]
      by_cases hkk : k' = k
      · rw [hkk, kdLookup_kdInsert_self, kdLookup_kdInsert_self]
      · rw [kdLookup_kdInsert_ne _ _ _ _ hkk, kdLookup_kdInsert_ne _ _ _ _ hkk]
        exact hInv.scan_eq k'
  · -- kd_ts
    intro k' e' hk'
    rw [hset] at hk'
    simp only at hk'
    by_cases hkk : k' = k
    · rw [hkk, kdLookup_kdInsert_self] at hk'
      cases hk'
      show ts < ts + 1
      omega
    · rw [kdLookup_kdInsert_ne _ _ _ _ hkk] at hk'
      have := hInv.kd_ts k' e' hk'
      omega
  · -- kd_fid
    intro k' e' hk'
    rw [hset] at hk'
    simp only at hk'
    rw [hstep, hmax']
    by_cases hkk : k' = k
    · rw [hkk, kdLookup_kdInsert_self] at hk'
      cases hk'
      exact le_refl aid
    · rw [kdLookup_kdInsert_ne _ _ _ _ hkk] at hk'
      have := hInv.kd_fid k' e' hk'
      rw [hmax] at this
      exact this

theorem EngineInv_del (s : BitCaskStorageEngine) (fr : FileRecs) (T ts : Int)
    (k : List Nat) (hInv : EngineInv s fr T) (hkb : k.length ≤ 2 ^ 20)
    (ht0 : 0 ≤ ts) (ht1 : ts < 2 ^ 63) (hT : T ≤ ts) :
    EngineInv (s.Delete .success ts k).1 (stepRecs s fr (.del k ts)) (ts + 1) := by
  rcases hcase : kdLookup k s.keyDir with _ | kd0
  · rw [Delete_absent_eq s .success ts k hcase]
    have hstep : stepRecs s fr (.del k ts) = fr := by
      rw [stepRecs, hcase]
    rw [hstep]
    exact EngineInv_mono s fr T (ts + 1) hInv (by omega)
  · obtain ⟨frI, aid, arecs, hfr, hlog, hlt, hmax⟩ := hInv.active
    have hwfe : wfEntry (newDataDirFileLogEntry ts k TOMBSTONE) :=
      wfEntry_tombstone ts k hkb ht0 ht1
    have hwfa : ∀ x ∈ arecs, wfEntry x := fun x hx =>
      hInv.wf_all (aid, arecs) (by rw [hfr]; simp) x hx
    have hdel := Delete_present_success_eq s ⟨(encodeList arecs).length, aid⟩ kd0 ts k
      hcase hlog
    have hstep : stepRecs s fr (.del k ts) =
        appendRec fr aid (newDataDirFileLogEntry ts k TOMBSTONE) := by
      rw [stepRecs, hcase, hlog]
    have hfr' : appendRec fr aid (newDataDirFileLogEntry ts k TOMBSTONE) =
        frI ++ [(aid, arecs ++ [newDataDirFileLogEntry ts k TOMBSTONE])] := by
      rw [hfr]
      exact appendRec_last frI aid arecs _ hlt
    have hscan' :
        (getKeyDirRecs (appendRec fr aid (newDataDirFileLogEntry ts k TOMBSTONE))).1 =
        applyRecord ((getKeyDirRecs fr).1) aid (encodeList arecs).length
          (newDataDirFileLogEntry ts k TOMBSTONE) :=
      scan_after_append fr frI aid arecs _ hfr hlt hwfa
    have hmax' :
        (getKeyDirRecs (appendRec fr aid (newDataDirFileLogEntry ts k TOMBSTONE))).2 =
          aid := by
      rw [maxid_after_append, hmax]
    refine ⟨?_, ?_, ?_, ?_, ?_, ?_, ?_⟩
    · rw [hdel]
      show appendToFile s.files aid (newDataDirFileLogEntry ts k TOMBSTONE).toBytes =
        encodeFiles (stepRecs s fr (.del k ts))
      rw [hstep, encodeFiles_appendRec, hInv.files_eq]
    · intro p hp x hx
      rw [hstep, hfr'] at hp
      rcases List.mem_append.1 hp with hp | hp
      · exact hInv.wf_all p (by rw [hfr]; exact List.mem_append_left _ hp) x hx
      · rw [List.mem_singleton] at hp
        subst hp
        rcases List.mem_append.1 hx with hx | hx
        · exact hwfa x hx
        · rw [List.mem_singleton] at hx
          subst hx
          exact hwfe
    · intro p hp x hx
      rw [hstep, hfr'] at hp
      rcases List.mem_append.1 hp with hp | hp
      · have := hInv.ts_lt p (by rw [hfr]; exact List.mem_append_left _ hp) x hx
        omega
      · rw [List.mem_singleton] at hp
        subst hp
        rcases List.mem_append.1 hx with hx | hx
        · have := hInv.ts_lt (aid, arecs) (by rw [hfr]; simp) x hx
          omega
        · rw [List.mem_singleton] at hx
          subst hx
          show (newDataDirFileLogEntry ts k TOMBSTONE).timeStamp < ts + 1
          simp [newDataDirFileLogEntry]
    · refine ⟨frI, aid, arecs ++ [newDataDirFileLogEntry ts k TOMBSTONE], ?_, ?_, hlt, ?_⟩
      · rw [hstep, hfr']
      · rw [hdel]
        show some _ = _
        have hlen :
            (encodeList (arecs ++ [newDataDirFileLogEntry ts k TOMBSTONE])).length =
            (encodeList arecs).length + (28 + k.length + TOMBSTONE.length) := by
          rw [encodeList_append, List.length_append, encodeList_cons, encodeList_nil,
            List.append_nil, toBytes_length]
          simp [newDataDirFileLogEntry]
        rw [hlen]
      · rw [hstep]
        exact hmax'
    · intro k'
      rw [hstep, hscan', hdel]
      show kdLookup k' (applyRecord ((getKeyDirRecs fr).1) aid (encodeList arecs).length
        (newDataDirFileLogEntry ts k TOMBSTONE)) = kdLookup k' (kdErase k s.keyDir)
      rw [applyRecord_tomb _ _ _ _ rfl]
      show kdLookup k' (kdErase k ((getKeyDirRecs fr).1)) = kdLookup k' (kdErase k s.keyDir)
      by_cases hkk : k' = k
      · rw [hkk, kdLookup_kdErase_self, kdLookup_kdErase_self]
      · rw [kdLookup_kdErase_ne _ _ _ hkk, kdLookup_kdErase_ne _ _ _ hkk]
        exact hInv.scan_eq k'
    · intro k' e' hk'
      rw [hdel] at hk'
      simp only at hk'
      have := hInv.kd_ts k' e' (kdLookup_kdErase_some k k' s.keyDir e' hk')
      omega
    · intro k' e' hk'
      rw [hdel] at hk'
      simp only at hk'
      rw [hstep, hmax']
      have := hInv.kd_fid k' e' (kdLookup_kdErase_some k k' s.keyDir e' hk')
      rw [hmax] at this
      exact this

theorem EngineInv_applyOp (s : BitCaskStorageEngine) (fr : FileRecs) (T : Int) (op : Op)
    (hInv : EngineInv s fr T) (hop : goodOpB op = true) (hT : T ≤ opTs op) :
    EngineInv (applyOp s op) (stepRecs s fr op) (opTs op + 1) := by
  cases op with
  | set k v ts =>
    simp only [goodOpB, Bool.and_eq_true, decide_eq_true_eq, Bool.not_eq_true',
      decide_eq_false_iff_not] at hop
    obtain ⟨⟨⟨⟨h1, h2⟩, h3⟩, h4⟩, h5⟩ := hop
    exact EngineInv_set s fr T ts k v hInv h1 h2 h3 h4 h5 hT
  | del k ts =>
    simp only [goodOpB, Bool.and_eq_true, decide_eq_true_eq] at hop
    obtain ⟨⟨h1, h2⟩, h3⟩ := hop
    exact EngineInv_del s fr T ts k hInv h1 h2 h3 hT

theorem EngineInv_runOps (ops : List Op) :
    ∀ (s : BitCaskStorageEngine) (fr : FileRecs) (T : Int), EngineInv s fr T →
      goodOpsB T ops = true →
      ∃ T', EngineInv (applyOps s ops) (runRecs s fr ops) T' := by
  induction ops with
  | nil =>
    intro s fr T h _
    exact ⟨T, h⟩
  | cons op rest ih =>
    intro s fr T h hg
    simp only [goodOpsB, Bool.and_eq_true, decide_eq_true_eq] at hg
    obtain ⟨⟨hop, hle⟩, hrest⟩ := hg
    rw [applyOps, runRecs]
    exact ih _ _ _ (EngineInv_applyOp s fr T op h hop hle) hrest

theorem EngineInv_fresh : EngineInv freshEngine [(1, [])] 0 := by
  refine ⟨rfl, ?_, ?_, ⟨[], 1, [], rfl, rfl, by simp, by decide⟩, ?_, ?_, ?_⟩
  · intro p hp e he
    rw [List.mem_singleton] at hp
    subst hp
    simp at he
  · intro p hp e he
    rw [List.mem_singleton] at hp
    subst hp
    simp at he
  · intro k
    rfl
  · intro k e hk
    simp [freshEngine, NewBitCaskStorageEngine, getKeyDir, kdLookup] at hk
  · intro k e hk
    simp [freshEngine, NewBitCaskStorageEngine, getKeyDir, kdLookup] at hk

/-! ### Lemmas: Get and re-opening -/

theorem Get_none (s : BitCaskStorageEngine) (key : List Nat)
    (h : kdLookup key s.keyDir = none) : s.Get key = .keyNotFound := by
  simp only [BitCaskStorageEngine.Get, h]

theorem Get_some (s : BitCaskStorageEngine) (key : List Nat) (kd : KeyDir)
    (h : kdLookup key s.keyDir = some kd) :
    s.Get key =
      match getLogValue s.files kd.fileId kd.valuePosition kd.valueSize with
      | none => .readError
      | some value => if value = TOMBSTONE then .keyNotFound else .found value := by
  simp only [BitCaskStorageEngine.Get, h]

theorem getLogValue_append_ne (files : List (Nat × List Nat)) (nid : Nat) (x : List Nat)
    (fileId valueOffset valueSize : Nat) (h : fileId ≠ nid) :
    getLogValue (files ++ [(nid, x)]) fileId valueOffset valueSize =
      getLogValue files fileId valueOffset valueSize := by
  simp only [getLogValue, lookupFile_append_ne files fileId nid x h]

theorem Close_files (s : BitCaskStorageEngine) : s.Close.1.files = s.files := rfl

theorem reopen_preserves (s : BitCaskStorageEngine) (fr : FileRecs) (T : Int)
    (hInv : EngineInv s fr T) :
    (∀ k, kdLookup k (NewBitCaskStorageEngine s.Close.1.files).keyDir =
      kdLookup k s.keyDir) ∧
    (∀ k, (NewBitCaskStorageEngine s.Close.1.files).Get k = s.Get k) := by
  have hbridge : getKeyDir s.files = getKeyDirRecs fr := by
    rw [hInv.files_eq]
    exact getKeyDir_encodeFiles fr hInv.wf_all
  have hkd2 : (NewBitCaskStorageEngine s.Close.1.files).keyDir = (getKeyDir s.files).1 := rfl
  have hfiles2 : (NewBitCaskStorageEngine s.Close.1.files).files =
      s.files ++ [((getKeyDir s.files).2 + 1, [])] := rfl
  have hlk : ∀ k, kdLookup k (NewBitCaskStorageEngine s.Close.1.files).keyDir =
      kdLookup k s.keyDir := by
    intro k
    rw [hkd2, hbridge]
    exact hInv.scan_eq k
  refine ⟨hlk, ?_⟩
  intro k
  rcases hcase : kdLookup k s.keyDir with _ | e'
  · rw [Get_none s k hcase, Get_none _ k ((hlk k).trans hcase)]
  · rw [Get_some s k e' hcase, Get_some _ k e' ((hlk k).trans hcase), hfiles2]
    have hfid : e'.fileId ≠ (getKeyDir s.files).2 + 1 := by
      have := hInv.kd_fid k e' hcase
      rw [← hbridge] at this
      omega
    rw [getLogValue_append_ne s.files _ [] e'.fileId e'.valuePosition e'.valueSize hfid]

theorem lookupFile_appendToFile_self (files : List (Nat × List Nat)) (fileId : Nat)
    (bytes c : List Nat) (h : lookupFile files fileId = some c) :
    lookupFile (appendToFile files fileId bytes) fileId = some (c ++ bytes) := by
  induction files with
  | nil => simp [lookupFile] at h
  | cons p rest ih =>
    by_cases hp : p.1 = fileId
    · rw [lookupFile, List.find?_cons_of_pos _ (by simp [hp])] at h
      rw [appendToFile, List.map_cons, if_pos hp, lookupFile,
        List.find?_cons_of_pos _ (by simp [hp])]
      simp only [Option.some.injEq] at h ⊢
      rw [← h]
    · rw [lookupFile, List.find?_cons_of_neg _ (by simp [hp])] at h
      rw [appendToFile, List.map_cons, if_neg hp, lookupFile,
        List.find?_cons_of_neg _ (by simp [hp])]
      exact ih h

theorem toBytes_drop_28 (e : DataDirFileLogEntry) : e.toBytes.drop 28 = e.key ++ e.value := by
  have h1 : e.toBytes = beBytes 4 e.crc ++ (encodeI64 e.timeStamp ++ (encodeI64 e.keySize ++
      (encodeI64 e.valueSize ++ (e.key ++ e.value)))) := by
    simp [DataDirFileLogEntry.toBytes, List.append_assoc]
  rw [h1, show (28 : Nat) = 4 + 24 from rfl, ← List.drop_drop,
    List.drop_left' (beBytes_length 4 _), show (24 : Nat) = 8 + 16 from rfl,
    ← List.drop_drop, List.drop_left' (encodeI64_length _),
    show (16 : Nat) = 8 + 8 from rfl, ← List.drop_drop,
    List.drop_left' (encodeI64_length _), List.drop_left' (encodeI64_length _)]

theorem value_slice (c : List Nat) (e : DataDirFileLogEntry) :
    ((c ++ e.toBytes).drop (c.length + 28 + e.key.length)).take e.value.length = e.value := by
  rw [show c.length + 28 + e.key.length = c.length + (28 + e.key.length) from by omega,
    ← List.drop_drop, List.drop_left, ← List.drop_drop, toBytes_drop_28, List.drop_left,
    List.take_length]

theorem Get_after_set (s : BitCaskStorageEngine) (l : Log) (contents : List Nat)
    (ts : Int) (k v : List Nat) (hl : s.activeLog = some l)
    (hf : lookupFile s.files l.fileId = some contents)
    (hw : l.writerPosition = contents.length) :
    (s.Set .success ts k v).2 = .ok ∧
    kdLookup k (s.Set .success ts k v).1.keyDir = some
      { fileId := l.fileId
        valueSize := v.length
        valuePosition := l.writerPosition + 28 + k.length
        timeStamp := ts } ∧
    (s.Set .success ts k v).1.Get k =
      (if v = TOMBSTONE then .keyNotFound else .found v) := by
  have hset := Set_success_eq s l ts k v hl
  have hlook : kdLookup k (s.Set .success ts k v).1.keyDir = some
      { fileId := l.fileId
        valueSize := v.length
        valuePosition := l.writerPosition + 28 + k.length
        timeStamp := ts } := by
    rw [hset]
    exact kdLookup_kdInsert_self _ _ _
  refine ⟨by rw [hset], hlook, ?_⟩
  rw [Get_some _ k _ hlook]
  have hfiles : (s.Set .success ts k v).1.files =
      appendToFile s.files l.fileId (newDataDirFileLogEntry ts k v).toBytes := by
    rw [hset]
  have hfind : lookupFile (s.Set .success ts k v).1.files l.fileId =
      some (contents ++ (newDataDirFileLogEntry ts k v).toBytes) := by
    rw [hfiles]
    exact lookupFile_appendToFile_self s.files l.fileId _ contents hf
  have hkey : (newDataDirFileLogEntry ts k v).key = k := rfl
  have hval : (newDataDirFileLogEntry ts k v).value = v := rfl
  have hlen : (contents ++ (newDataDirFileLogEntry ts k v).toBytes).length =
      contents.length + (28 + k.length + v.length) := by
    rw [List.length_append, toBytes_length, hkey, hval]
  have hslice : ((contents ++ (newDataDirFileLogEntry ts k v).toBytes).drop
      (contents.length + 28 + k.length)).take v.length = v := by
    have := value_slice contents (newDataDirFileLogEntry ts k v)
    rw [hkey, hval] at this
    exact this
  simp only [getLogValue, hfind]
  rw [if_pos (by rw [hlen, hw]; omega)]
  rw [hw, show contents.length + 28 + k.length = contents.length + 28 + k.length from rfl]
  rw [hslice]

/-! ### Claim theorems -/

/-- Claim C1, counterexample: the claim "if Set(k,v) returns success then a
subsequent Get(k) returns exactly the bytes v" fails when v is the 9-byte
tombstone sentinel: on a fresh engine, Set succeeds but Get does not return
the value. -/
theorem claim_C1_counterexample :
    (freshEngine.Set .success 1 [107] TOMBSTONE).2 = .ok ∧
    (freshEngine.Set .success 1 [107] TOMBSTONE).1.Get [107] ≠ .found TOMBSTONE := by
  decide

/-- Claim C1, amended: for every key k and every value v other than the
tombstone sentinel, if Set(k,v) on an open BitCask engine (whose tracked
write position matches the active file's length) returns success, then a
subsequent Get(k) returns exactly the bytes v. -/
theorem claim_C1 (s : BitCaskStorageEngine) (l : Log) (contents : List Nat)
    (ts : Int) (k v : List Nat) (hl : s.activeLog = some l)
    (hf : lookupFile s.files l.fileId = some contents)
    (hw : l.writerPosition = contents.length) (hv : v ≠ TOMBSTONE) :
    (s.Set .success ts k v).2 = .ok ∧ (s.Set .success ts k v).1.Get k = .found v := by
  obtain ⟨h1, _, h3⟩ := Get_after_set s l contents ts k v hl hf hw
  exact ⟨h1, by rw [h3, if_neg hv]⟩

/-- Witness for claim C1 at a concrete input. -/
theorem claim_C1_witness :
    (freshEngine.Set .success 5 [97] [98]).2 = .ok ∧
    (freshEngine.Set .success 5 [97] [98]).1.Get [97] = .found [98] :=
  claim_C1 freshEngine { writerPosition := 0, fileId := 1 } [] 5 [97] [98]
    (by decide) (by decide) rfl (by decide)

/-- Claim C3, counterexample: the claim "Set with the empty key fails and
appends nothing to the log" is false: the BitCask engine performs no key
validation, so Set(\x22\x22,v) succeeds and appends a record. -/
theorem claim_C3_counterexample :
    (freshEngine.Set .success 1 [] [120]).2 = .ok ∧
    (freshEngine.Set .success 1 [] [120]).1.files ≠ freshEngine.files := by
  decide

/-- Claim C3, amended: Set with the empty key on an open BitCask engine
SUCCEEDS: it appends a record for the empty key to the active log and
inserts the empty key into the key directory (the empty-key rejection exists
only in the in-memory engine and KVStore front ends, not in the BitCask
engine).  Empty values are likewise accepted. -/
theorem claim_C3 (s : BitCaskStorageEngine) (l : Log) (ts : Int) (v : List Nat)
    (hl : s.activeLog = some l) :
    (s.Set .success ts [] v).2 = .ok ∧
    (s.Set .success ts [] v).1.files =
      appendToFile s.files l.fileId (newDataDirFileLogEntry ts [] v).toBytes ∧
    kdLookup [] (s.Set .success ts [] v).1.keyDir = some
      { fileId := l.fileId
        valueSize := v.length
        valuePosition := l.writerPosition + 28
        timeStamp := ts } := by
  have hset := Set_success_eq s l ts [] v hl
  refine ⟨by rw [hset], by rw [hset], ?_⟩
  rw [hset]
  exact kdLookup_kdInsert_self _ _ _

/-- Witness for claim C3 at a concrete input. -/
theorem claim_C3_witness :
    (freshEngine.Set .success 2 [] [120]).2 = .ok ∧
    (freshEngine.Set .success 2 [] [120]).1.files =
      appendToFile freshEngine.files 1 (newDataDirFileLogEntry 2 [] [120]).toBytes ∧
    kdLookup [] (freshEngine.Set .success 2 [] [120]).1.keyDir = some
      { fileId := 1
        valueSize := 1
        valuePosition := 28
        timeStamp := 2 } :=
  claim_C3 freshEngine { writerPosition := 0, fileId := 1 } 2 [120] (by decide)

/-- Claim C10: after a successful Set(k, tombstone-sentinel) passing the
9-byte sentinel as an ordinary value, the key IS inserted into the key
directory, yet Get(k) fails with key-not-found; and no value equal to the
sentinel is ever observable through Get on any engine state. -/
theorem claim_C10 (s : BitCaskStorageEngine) (l : Log) (contents : List Nat)
    (ts : Int) (k : List Nat) (hl : s.activeLog = some l)
    (hf : lookupFile s.files l.fileId = some contents)
    (hw : l.writerPosition = contents.length) :
    (s.Set .success ts k TOMBSTONE).2 = .ok ∧
    kdLookup k (s.Set .success ts k TOMBSTONE).1.keyDir ≠ none ∧
    (s.Set .success ts k TOMBSTONE).1.Get k = .keyNotFound ∧
    (∀ (s' : BitCaskStorageEngine) (k' v : List Nat), s'.Get k' = .found v →
      v ≠ TOMBSTONE) := by
  obtain ⟨h1, h2, h3⟩ := Get_after_set s l contents ts k TOMBSTONE hl hf hw
  refine ⟨h1, by rw [h2]; simp, by rw [h3, if_pos rfl], ?_⟩
  intro s' k' v hg
  rcases hcase : kdLookup k' s'.keyDir with _ | kd
  · rw [Get_none s' k' hcase] at hg
    exact absurd hg (by simp)
  · rw [Get_some s' k' kd hcase] at hg
    rcases hv : getLogValue s'.files kd.fileId kd.valuePosition kd.valueSize with _ | value
    · simp only [hv] at hg
      exact absurd hg (by simp)
    · simp only [hv] at hg
      split_ifs at hg with htomb
      · have hv' : value = v := GetResult.found.inj hg
        intro hvt
        rw [← hv'] at hvt
        exact htomb hvt

/-- Witness for claim C10 at a concrete input. -/
theorem claim_C10_witness :
    (freshEngine.Set .success 4 [106] TOMBSTONE).2 = .ok ∧
    kdLookup [106] (freshEngine.Set .success 4 [106] TOMBSTONE).1.keyDir ≠ none ∧
    (freshEngine.Set .success 4 [106] TOMBSTONE).1.Get [106] = .keyNotFound ∧
    (∀ (s' : BitCaskStorageEngine) (k' v : List Nat), s'.Get k' = .found v →
      v ≠ TOMBSTONE) :=
  claim_C10 freshEngine { writerPosition := 0, fileId := 1 } [] 4 [106]
    (by decide) (by decide) rfl

/-- Claim C4: for every record whose size fields agree with its key/value
byte lengths and lie in [0, 2^20] (with a 32-bit crc and an int64
timestamp, as every record the engine builds has), decoding the bytes
produced by encoding returns the original record and reports
28 + key_size + value_size bytes consumed. -/
theorem claim_C4 (e : DataDirFileLogEntry)
    (hcrc : e.crc < 2 ^ 32) (hts1 : -(2 ^ 63) ≤ e.timeStamp) (hts2 : e.timeStamp < 2 ^ 63)
    (hk : e.keySize = e.key.length) (hv : e.valueSize = e.value.length)
    (hkb : e.keySize ≤ 2 ^ 20) (hvb : e.valueSize ≤ 2 ^ 20) :
    readEntry e.toBytes 0 = .ok e (28 + e.keySize.toNat + e.valueSize.toNat) := by
  have hkb' : e.key.length ≤ 2 ^ 20 := by
    rw [hk] at hkb
    exact_mod_cast hkb
  have hvb' : e.value.length ≤ 2 ^ 20 := by
    rw [hv] at hvb
    exact_mod_cast hvb
  have h := readEntry_append [] [] e hcrc hts1 hts2 hk hv hkb' hvb'
  simpa using h

/-- Witness for claim C4 at a concrete record. -/
theorem claim_C4_witness :
    readEntry (DataDirFileLogEntry.mk (crc32 [98, 99]) 7 1 2 [97] [98, 99]).toBytes 0 =
      .ok (DataDirFileLogEntry.mk (crc32 [98, 99]) 7 1 2 [97] [98, 99])
        (28 + (1 : Int).toNat + (2 : Int).toNat) :=
  claim_C4 (DataDirFileLogEntry.mk (crc32 [98, 99]) 7 1 2 [97] [98, 99])
    (by decide) (by decide) (by decide) (by decide) (by decide) (by decide) (by decide)

/-- Claim C5: during the startup scan, each decoded record is processed in
order by the loop; a tombstone-valued record removes its key from the
directory (other keys untouched); a non-tombstone record upserts its key iff
the key is absent or the record's timestamp is strictly greater than the
existing entry's, otherwise the directory is unchanged; the stored entry has
value_offset = record_start + 28 + key_size. -/
theorem claim_C5 (keyDir : KeyDirMap) (fileId position fuel : Nat) (data : List Nat)
    (e : DataDirFileLogEntry) (entrySize : Nat)
    (hread : readEntry data position = .ok e entrySize) :
    scanFileAux (fuel + 1) keyDir fileId data position =
      scanFileAux fuel (applyRecord keyDir fileId position e) fileId data
        (position + entrySize) ∧
    (e.value = TOMBSTONE →
      kdLookup e.key (applyRecord keyDir fileId position e) = none ∧
      ∀ k', k' ≠ e.key →
        kdLookup k' (applyRecord keyDir fileId position e) = kdLookup k' keyDir) ∧
    (e.value ≠ TOMBSTONE →
      (kdLookup e.key keyDir = none →
        kdLookup e.key (applyRecord keyDir fileId position e) = some
          { fileId := fileId
            valueSize := e.valueSize.toNat
            valuePosition := position + 28 + e.keySize.toNat
            timeStamp := e.timeStamp }) ∧
      (∀ old, kdLookup e.key keyDir = some old → old.timeStamp < e.timeStamp →
        kdLookup e.key (applyRecord keyDir fileId position e) = some
          { fileId := fileId
            valueSize := e.valueSize.toNat
            valuePosition := position + 28 + e.keySize.toNat
            timeStamp := e.timeStamp }) ∧
      (∀ old, kdLookup e.key keyDir = some old → ¬ old.timeStamp < e.timeStamp →
        applyRecord keyDir fileId position e = keyDir) ∧
      (∀ k', k' ≠ e.key →
        kdLookup k' (applyRecord keyDir fileId position e) = kdLookup k' keyDir)) := by
  refine ⟨by simp only [scanFileAux, hread], ?_, ?_⟩
  · intro htomb
    rw [applyRecord_tomb _ _ _ _ htomb]
    exact ⟨kdLookup_kdErase_self _ _, fun k' hk' => kdLookup_kdErase_ne _ _ _ hk'⟩
  · intro hvt
    refine ⟨?_, ?_, ?_, ?_⟩
    · intro hnone
      rw [applyRecord_fresh _ _ _ _ hvt hnone]
      exact kdLookup_kdInsert_self _ _ _
    · intro old hold hts
      rw [applyRecord_newer _ _ _ _ old hvt hold hts]
      exact kdLookup_kdInsert_self _ _ _
    · intro old hold hts
      exact applyRecord_stale _ _ _ _ old hvt hold hts
    · intro k' hk'
      rcases hc : kdLookup e.key keyDir with _ | old
      · rw [applyRecord_fresh _ _ _ _ hvt hc, kdLookup_kdInsert_ne _ _ _ _ hk']
      · by_cases hts : old.timeStamp < e.timeStamp
        · rw [applyRecord_newer _ _ _ _ old hvt hc hts, kdLookup_kdInsert_ne _ _ _ _ hk']
        · rw [applyRecord_stale _ _ _ _ old hvt hc hts]

set_option maxRecDepth 4000 in
/-- Witness for claim C5 at a concrete scan state. -/
theorem claim_C5_witness :
    scanFileAux 1 [] 1 (newDataDirFileLogEntry 3 [97] [98]).toBytes 0 =
      scanFileAux 0 (applyRecord [] 1 0 (newDataDirFileLogEntry 3 [97] [98])) 1
        (newDataDirFileLogEntry 3 [97] [98]).toBytes (0 + 30) ∧
    ((newDataDirFileLogEntry 3 [97] [98]).value = TOMBSTONE →
      kdLookup (newDataDirFileLogEntry 3 [97] [98]).key
        (applyRecord [] 1 0 (newDataDirFileLogEntry 3 [97] [98])) = none ∧
      ∀ k', k' ≠ (newDataDirFileLogEntry 3 [97] [98]).key →
        kdLookup k' (applyRecord [] 1 0 (newDataDirFileLogEntry 3 [97] [98])) =
          kdLookup k' []) ∧
    ((newDataDirFileLogEntry 3 [97] [98]).value ≠ TOMBSTONE →
      (kdLookup (newDataDirFileLogEntry 3 [97] [98]).key [] = none →
        kdLookup (newDataDirFileLogEntry 3 [97] [98]).key
          (applyRecord [] 1 0 (newDataDirFileLogEntry 3 [97] [98])) = some
          { fileId := 1
            valueSize := (newDataDirFileLogEntry 3 [97] [98]).valueSize.toNat
            valuePosition := 0 + 28 + (newDataDirFileLogEntry 3 [97] [98]).keySize.toNat
            timeStamp := (newDataDirFileLogEntry 3 [97] [98]).timeStamp }) ∧
      (∀ old, kdLookup (newDataDirFileLogEntry 3 [97] [98]).key [] = some old →
        old.timeStamp < (newDataDirFileLogEntry 3 [97] [98]).timeStamp →
        kdLookup (newDataDirFileLogEntry 3 [97] [98]).key
          (applyRecord [] 1 0 (newDataDirFileLogEntry 3 [97] [98])) = some
          { fileId := 1
            valueSize := (newDataDirFileLogEntry 3 [97] [98]).valueSize.toNat
            valuePosition := 0 + 28 + (newDataDirFileLogEntry 3 [97] [98]).keySize.toNat
            timeStamp := (newDataDirFileLogEntry 3 [97] [98]).timeStamp }) ∧
      (∀ old, kdLookup (newDataDirFileLogEntry 3 [97] [98]).key [] = some old →
        ¬ old.timeStamp < (newDataDirFileLogEntry 3 [97] [98]).timeStamp →
        applyRecord [] 1 0 (newDataDirFileLogEntry 3 [97] [98]) = []) ∧
      (∀ k', k' ≠ (newDataDirFileLogEntry 3 [97] [98]).key →
        kdLookup k' (applyRecord [] 1 0 (newDataDirFileLogEntry 3 [97] [98])) =
          kdLookup k' [])) :=
  claim_C5 [] 1 0 0 (newDataDirFileLogEntry 3 [97] [98]).toBytes
    (newDataDirFileLogEntry 3 [97] [98]) 30 (by decide)

/-- Claim C6: `readEntry` reports clean end of file when fewer than 28
header bytes remain at the position; a corrupt-size error when the parsed
key_size or value_size is negative or exceeds 2^20; and a truncation error
when fewer than key_size key bytes, or value_size value bytes, remain after
a valid header. -/
theorem claim_C6 (data : List Nat) (position : Nat) :
    (data.length < position + 28 → readEntry data position = .eof) ∧
    (¬ data.length < position + 28 →
      (parsedField data (position + 12) < 0 ∨ parsedField data (position + 20) < 0 ∨
        2 ^ 20 < parsedField data (position + 12) ∨
        2 ^ 20 < parsedField data (position + 20)) →
      readEntry data position = .err .invalidSize) ∧
    (¬ data.length < position + 28 →
      ¬ (parsedField data (position + 12) < 0 ∨ parsedField data (position + 20) < 0 ∨
        2 ^ 20 < parsedField data (position + 12) ∨
        2 ^ 20 < parsedField data (position + 20)) →
      data.length < position + 28 + (parsedField data (position + 12)).toNat →
      readEntry data position = .err .keyTruncated) ∧
    (¬ data.length < position + 28 →
      ¬ (parsedField data (position + 12) < 0 ∨ parsedField data (position + 20) < 0 ∨
        2 ^ 20 < parsedField data (position + 12) ∨
        2 ^ 20 < parsedField data (position + 20)) →
      ¬ data.length < position + 28 + (parsedField data (position + 12)).toNat →
      data.length < position + 28 + (parsedField data (position + 12)).toNat +
        (parsedField data (position + 20)).toNat →
      readEntry data position = .err .valueTruncated) := by
  refine ⟨fun h => readEntry_eof data position h, ?_, ?_, ?_⟩
  · intro h1 h2
    rw [readEntry, if_neg h1, if_pos h2]
  · intro h1 h2 h3
    rw [readEntry, if_neg h1, if_neg h2, if_pos h3]
  · intro h1 h2 h3 h4
    rw [readEntry, if_neg h1, if_neg h2, if_neg h3, if_pos h4]

set_option maxRecDepth 4000 in
/-- Witness for claim C6: each error mode observed on a concrete input. -/
theorem claim_C6_witness :
    readEntry [0] 0 = .eof ∧
    readEntry (beBytes 4 0 ++ encodeI64 0 ++ encodeI64 (2 ^ 20 + 1) ++ encodeI64 0) 0 =
      .err .invalidSize ∧
    readEntry (beBytes 4 0 ++ encodeI64 0 ++ encodeI64 5 ++ encodeI64 0) 0 =
      .err .keyTruncated ∧
    readEntry (beBytes 4 0 ++ encodeI64 0 ++ encodeI64 1 ++ encodeI64 5 ++ [97]) 0 =
      .err .valueTruncated :=
  ⟨(claim_C6 [0] 0).1 (by decide),
    (claim_C6 _ 0).2.1 (by decide) (by decide),
    (claim_C6 _ 0).2.2.1 (by decide) (by decide) (by decide),
    (claim_C6 _ 0).2.2.2 (by decide) (by decide) (by decide) (by decide)⟩

/-- Claim C7: when the log append of a Set, or of a Delete on a present
key, fails, the key directory is left exactly as it was, the caller
receives the write error, and the tracked append position of the active log
is re-synchronized to the file length observed after the failed write. -/
theorem claim_C7 (s : BitCaskStorageEngine) (l : Log) (ts : Int)
    (k v torn : List Nat) (hl : s.activeLog = some l) :
    ((s.Set (.fail torn) ts k v).2 = .writeFailed ∧
      (s.Set (.fail torn) ts k v).1.keyDir = s.keyDir ∧
      (s.Set (.fail torn) ts k v).1.activeLog = some
        { writerPosition :=
            ((lookupFile (s.Set (.fail torn) ts k v).1.files l.fileId).getD []).length
          fileId := l.fileId }) ∧
    (∀ kd, kdLookup k s.keyDir = some kd →
      (s.Delete (.fail torn) ts k).2 = .writeFailed ∧
      (s.Delete (.fail torn) ts k).1.keyDir = s.keyDir ∧
      (s.Delete (.fail torn) ts k).1.activeLog = some
        { writerPosition :=
            ((lookupFile (s.Delete (.fail torn) ts k).1.files l.fileId).getD []).length
          fileId := l.fileId }) := by
  constructor
  · refine ⟨?_, ?_, ?_⟩ <;> simp [BitCaskStorageEngine.Set, hl, Log.setLogEntry]
  · intro kd hkd
    refine ⟨?_, ?_, ?_⟩ <;> simp [BitCaskStorageEngine.Delete, hkd, hl, Log.setLogEntry]

/-- Witness for claim C7 at a concrete failed write. -/
theorem claim_C7_witness :
    (((freshEngine.Set (.fail [1, 2]) 3 [97] [98]).2 = .writeFailed ∧
      (freshEngine.Set (.fail [1, 2]) 3 [97] [98]).1.keyDir = freshEngine.keyDir ∧
      (freshEngine.Set (.fail [1, 2]) 3 [97] [98]).1.activeLog = some
        { writerPosition :=
            ((lookupFile (freshEngine.Set (.fail [1, 2]) 3 [97] [98]).1.files 1).getD
              []).length
          fileId := 1 }) ∧
    (∀ kd, kdLookup [97] freshEngine.keyDir = some kd →
      (freshEngine.Delete (.fail [1, 2]) 3 [97]).2 = .writeFailed ∧
      (freshEngine.Delete (.fail [1, 2]) 3 [97]).1.keyDir = freshEngine.keyDir ∧
      (freshEngine.Delete (.fail [1, 2]) 3 [97]).1.activeLog = some
        { writerPosition :=
            ((lookupFile (freshEngine.Delete (.fail [1, 2]) 3 [97]).1.files 1).getD
              []).length
          fileId := 1 })) :=
  claim_C7 freshEngine { writerPosition := 0, fileId := 1 } 3 [97] [98] [1, 2] (by decide)

/-- Claim C8: deleting a key absent from the directory returns success and
leaves the whole engine state (directory and log files) untouched, and a
second Delete of the same key right after a successful Delete is a
successful no-op, so Delete twice equals Delete once. -/
theorem claim_C8 (s : BitCaskStorageEngine) (l : Log) (w w2 : WriteOutcome)
    (ts ts2 : Int) (k : List Nat) (hl : s.activeLog = some l) :
    (kdLookup k s.keyDir = none → s.Delete w ts k = (s, .ok)) ∧
    (s.Delete .success ts k).1.Delete w2 ts2 k = ((s.Delete .success ts k).1, .ok) := by
  refine ⟨fun h => Delete_absent_eq s w ts k h, ?_⟩
  rcases hcase : kdLookup k s.keyDir with _ | kd0
  · rw [Delete_absent_eq s .success ts k hcase]
    exact Delete_absent_eq s w2 ts2 k hcase
  · rw [Delete_present_success_eq s l kd0 ts k hcase hl]
    exact Delete_absent_eq _ w2 ts2 k (kdLookup_kdErase_self k s.keyDir)

/-- Witness for claim C8 at a concrete input. -/
theorem claim_C8_witness :
    (kdLookup [97] freshEngine.keyDir = none →
      freshEngine.Delete .success 1 [97] = (freshEngine, .ok)) ∧
    (freshEngine.Delete .success 1 [97]).1.Delete .success 2 [97] =
      ((freshEngine.Delete .success 1 [97]).1, .ok) :=
  claim_C8 freshEngine { writerPosition := 0, fileId := 1 } .success .success 1 2 [97]
    (by decide)

/-- Claim C9, counterexample: the claim that after Close every data-plane
operation fails is false: the key directory survives Close and the log
files stay on disk, so Get on a closed engine still completes successfully. -/
theorem claim_C9_counterexample :
    (freshEngine.Set .success 1 [107] [118]).1.Close.1.Get [107] = .found [118] := by
  decide

/-- Claim C9, amended: after Close (active log nil), Set panics on the nil
active log, and Delete of a key still in the directory panics likewise —
programming errors, as the claim allows — but the engine is NOT fully
inert: Delete of an absent key returns success, and Get behaves exactly as
on the open engine (the key directory is not cleared), so reads can still
complete successfully. -/
theorem claim_C9 (s : BitCaskStorageEngine) (w : WriteOutcome) (ts : Int)
    (k v : List Nat) (hclosed : s.activeLog = none) :
    s.Set w ts k v = (s, .nilPanic) ∧
    (∀ kd, kdLookup k s.keyDir = some kd → s.Delete w ts k = (s, .nilPanic)) ∧
    (kdLookup k s.keyDir = none → s.Delete w ts k = (s, .ok)) ∧
    (∀ l, BitCaskStorageEngine.Get { s with activeLog := some l } k = s.Get k) := by
  refine ⟨?_, ?_, fun h => Delete_absent_eq s w ts k h, fun l => rfl⟩
  · simp only [BitCaskStorageEngine.Set, hclosed]
  · intro kd hkd
    simp only [BitCaskStorageEngine.Delete, hkd, hclosed]

/-- Witness for claim C9 on a concretely closed engine. -/
theorem claim_C9_witness :
    freshEngine.Close.1.Set .success 3 [97] [98] = (freshEngine.Close.1, .nilPanic) ∧
    (∀ kd, kdLookup [97] freshEngine.Close.1.keyDir = some kd →
      freshEngine.Close.1.Delete .success 3 [97] = (freshEngine.Close.1, .nilPanic)) ∧
    (kdLookup [97] freshEngine.Close.1.keyDir = none →
      freshEngine.Close.1.Delete .success 3 [97] = (freshEngine.Close.1, .ok)) ∧
    (∀ l, BitCaskStorageEngine.Get { freshEngine.Close.1 with activeLog := some l } [97] =
      freshEngine.Close.1.Get [97]) :=
  claim_C9 freshEngine.Close.1 .success 3 [97] [98] (by decide)

set_option maxRecDepth 20000 in
/-- Claim C2, counterexample: liveness is NOT always preserved across close
and re-open: after Set(k, tombstone-sentinel) the key is live in the
in-memory directory, but the startup scan of the re-opened engine treats
the record as a tombstone and drops the key. -/
theorem claim_C2_counterexample :
    kdLookup [107] (applyOps freshEngine [Op.set [107] TOMBSTONE 1]).keyDir ≠ none ∧
    kdLookup [107]
      (NewBitCaskStorageEngine
        (applyOps freshEngine [Op.set [107] TOMBSTONE 1]).Close.1.files).keyDir = none := by
  decide

/-- Claim C2, amended: for every sequence of successful Set/Delete
operations from a freshly opened engine whose keys and values are within
the decoder's 2^20-byte bound, whose Set values are not the tombstone
sentinel, and whose timestamps are strictly increasing non-negative int64
values (as `UnixNano` yields on a nanosecond clock), closing the engine and
opening a new engine on the same directory reconstructs a key directory
with exactly the same bindings, and Get on every key returns exactly what
it returned just before the close. -/
theorem claim_C2 (ops : List Op) (h : goodOpsB 0 ops = true) :
    (∀ k, kdLookup k
      (NewBitCaskStorageEngine (applyOps freshEngine ops).Close.1.files).keyDir =
        kdLookup k (applyOps freshEngine ops).keyDir) ∧
    (∀ k, (NewBitCaskStorageEngine (applyOps freshEngine ops).Close.1.files).Get k =
      (applyOps freshEngine ops).Get k) := by
  obtain ⟨T', hInv⟩ := EngineInv_runOps ops freshEngine [(1, [])] 0 EngineInv_fresh h
  exact reopen_preserves _ _ _ hInv

/-- Witness for claim C2 on a concrete operation sequence. -/
theorem claim_C2_witness :
    goodOpsB 0 [Op.set [97] [49] 1, Op.set [98] [50] 2, Op.del [97] 3] = true ∧
    (kdLookup [98]
      (NewBitCaskStorageEngine (applyOps freshEngine
        [Op.set [97] [49] 1, Op.set [98] [50] 2, Op.del [97] 3]).Close.1.files).keyDir =
      kdLookup [98] (applyOps freshEngine
        [Op.set [97] [49] 1, Op.set [98] [50] 2, Op.del [97] 3]).keyDir) ∧
    ((NewBitCaskStorageEngine (applyOps freshEngine
        [Op.set [97] [49] 1, Op.set [98] [50] 2, Op.del [97] 3]).Close.1.files).Get [98] =
      (applyOps freshEngine
        [Op.set [97] [49] 1, Op.set [98] [50] 2, Op.del [97] 3]).Get [98]) :=
  ⟨by decide,
    (claim_C2 [Op.set [97] [49] 1, Op.set [98] [50] 2, Op.del [97] 3] (by decide)).1 [98],
    (claim_C2 [Op.set [97] [49] 1, Op.set [98] [50] 2, Op.del [97] 3] (by decide)).2 [98]⟩
